import Mathlib

/-!
Verification of the 2fa-ts one-time-password library core.

The development shallowly embeds the algorithmic core of the library:
the base32 codec and `Secret` views (src/secret.ts), the HMAC
construction (src/hmac.ts), the HOTP engine (src/hotp.ts), the TOTP
engine (src/totp.ts) and the key-URI codec (src/uri.ts).

Modelling conventions:
- JavaScript strings are modelled as `List Char`; thrown exceptions as
  `Except (List Char)`.  Error strings are short English tags standing
  for the thrown error kinds (the sources throw Spanish messages).
- JavaScript numbers are modelled as `Nat` / `Int` / `Rat` with exact
  arithmetic.  Everywhere the sources use bitwise operators the
  operands stay far below 2^31, and `Uint8Array` writes mask values
  with `% 256`, so the exact model agrees with the int32/uint8
  semantics of the sources on the quantified domains.
- The platform hash primitives (Web Crypto / node:crypto, reached
  through `sha1`/`sha256`/`sha512` in src/hmac.ts) are external
  collaborators; they are modelled as an `Engine` record of opaque
  byte-sequence functions supplied as a parameter.
-/

/-- JavaScript strings are modelled as lists of characters. -/
abbrev Str := List Char

deriving instance DecidableEq for Except

/-- Lowercasing of a string, modelling `String.prototype.toLowerCase`
(the sources only apply it to ASCII data). -/
def toLowerStr (s : Str) : Str := s.map Char.toLower

/-- Uppercasing of a string, modelling `String.prototype.toUpperCase`
(the sources only apply it to ASCII data). -/
def toUpperStr (s : Str) : Str := s.map Char.toUpper

/-- The decimal digit character for `d < 10`. -/
def digitChar (d : Nat) : Char := Char.ofNat (48 + d)

/-- The digit-peeling loop behind decimal rendering; the fuel bounds
the recursion depth and is in practice the number itself. -/
def natToCharsAux : Nat → Nat → List Char
  | 0, _ => []
  | fuel + 1, n => if n = 0 then [] else natToCharsAux fuel (n / 10) ++ [digitChar (n % 10)]

/-- Decimal rendering of a natural number, modelling `String(n)` /
`Number.prototype.toString` for nonnegative integers. -/
def natToChars (n : Nat) : Str :=
  if n = 0 then [digitChar 0] else natToCharsAux (n + 1) n

/-- Decimal rendering of an integer, modelling `String(n)`. -/
def intToChars (n : Int) : Str :=
  if n < 0 then '-' :: natToChars n.natAbs else natToChars n.toNat

/-- Numeric value of a decimal digit character. -/
def digitVal (c : Char) : Nat := c.toNat - 48

/-- Value of a string of decimal digits, most significant first. -/
def parseDigits (s : Str) : Nat := s.foldl (fun a c => a * 10 + digitVal c) 0

/-- Modelling `parseInt(s, 10)` on strings that match the integer
regular expressions of src/uri.ts: an optional sign followed by
decimal digits. -/
def parseIntJS (s : Str) : Int :=
  match s with
  | [] => 0
  | c :: rest =>
      if c = '-' then -(parseDigits rest : Int)
      else if c = '+' then (parseDigits rest : Int)
      else (parseDigits s : Int)

/-- The unpadded RFC 4648 base32 alphabet of src/secret.ts. -/
def ALPHABET : Str := "ABCDEFGHIJKLMNOPQRSTUVWXYZ234567".toList

/-- Indexing into the alphabet, modelling `ALPHABET[idx]` for the
in-range indices produced by the encoder. -/
def alphaChar (s : Nat) : Char := ALPHABET.getD s 'A'

/-- Modelling `ALPHABET.indexOf(ch)` together with the decoder throw on
a character outside the alphabet. -/
def charIdxE (c : Char) : Except Str Nat :=
  match ALPHABET.findIdx? (fun x => x = c) with
  | some i => .ok i
  | none => .error ("invalid character found: ".toList ++ [c])

/-- Removal of the trailing run of padding characters, modelling the
`while (str[end - 1] === "=") --end` loop of `base32Decode`. -/
def stripTrailingEqs (s : Str) : Str := (s.reverse.dropWhile (· = '=')).reverse

/-- The preprocessing of `base32Decode`: remove spaces, uppercase,
strip trailing padding. -/
def base32DecodePrep (s : Str) : Str :=
  stripTrailingEqs ((s.filter (fun c => c ≠ ' ')).map Char.toUpper)

/-- The bit-accumulator loop of `base32Decode` over the 5-bit symbol
values.  The JavaScript accumulator `value` is never masked but only
its low 12 bits are ever read, so the unbounded `Nat` model agrees
with the int32 semantics; the `% 256` models the `Uint8Array` write. -/
def decodeCore : List Nat → Nat → Nat → List Nat
  | [], _, _ => []
  | s :: rest, bits, value =>
      let value2 := value * 32 + s
      let bits2 := bits + 5
      if 8 ≤ bits2 then (value2 / 2 ^ (bits2 - 8)) % 256 :: decodeCore rest (bits2 - 8) value2
      else decodeCore rest bits2 value2

/-- Effectful map over a string, aborting at the first error; this is
the shape of the character loop in `base32Decode`. -/
def mapE (f : Char → Except Str Nat) : Str → Except Str (List Nat)
  | [] => .ok []
  | c :: rest => do
      let x ← f c
      let xs ← mapE f rest
      pure (x :: xs)

/-- `base32Decode` of src/secret.ts. -/
def base32Decode (s : Str) : Except Str (List Nat) := do
  let syms ← mapE charIdxE (base32DecodePrep s)
  pure (decodeCore syms 0 0)

/-- The inner `while (bits >= 5)` loop of `base32Encode`: emit 5-bit
symbols from the high pending bits.  `value` is left unchanged by the
loop; only `bits` decreases. -/
def drain : Nat → Nat → List Nat × Nat
  | b + 5, value => ((value / 2 ^ b) % 32 :: (drain b value).1, (drain b value).2)
  | bits, _ => ([], bits)

/-- The byte loop of `base32Encode` over 5-bit symbol values, including
the final partial symbol left-padded with zero bits. -/
def encodeCore : List Nat → Nat → Nat → List Nat
  | [], bits, value => if 0 < bits then [(value * 2 ^ (5 - bits)) % 32] else []
  | b :: rest, bits, value =>
      let value2 := value * 256 + b
      (drain (bits + 8) value2).1 ++ encodeCore rest (drain (bits + 8) value2).2 value2

/-- `base32Encode` of src/secret.ts. -/
def base32Encode (bs : List Nat) : Str := (encodeCore bs 0 0).map alphaChar

/-- Modelling `String.prototype.padStart(n, c)`. -/
def padStart (s : Str) (n : Nat) (c : Char) : Str := List.replicate (n - s.length) c ++ s

/-- The external platform hash primitives (Web Crypto / node:crypto):
one opaque byte-sequence transformer per algorithm of src/hmac.ts. -/
structure Engine where
  sha1 : List Nat → List Nat
  sha256 : List Nat → List Nat
  sha512 : List Nat → List Nat

/-- A concrete stand-in engine returning all-zero digests of the real
digest lengths, used to evaluate the model on closed inputs. -/
def trivEngine : Engine :=
  ⟨fun _ => List.replicate 20 0, fun _ => List.replicate 32 0, fun _ => List.replicate 64 0⟩

/-- `getHashFunction` of src/hmac.ts: case-insensitive dispatch to the
three supported primitives, throwing on any other name. -/
def getHashFunction (eng : Engine) (algorithm : Str) : Except Str (List Nat → List Nat) :=
  if toLowerStr algorithm = "sha1".toList then .ok eng.sha1
  else if toLowerStr algorithm = "sha256".toList then .ok eng.sha256
  else if toLowerStr algorithm = "sha512".toList then .ok eng.sha512
  else .error ("unsupported algorithm: ".toList ++ algorithm)

/-- The body of `hmacDigest` of src/hmac.ts once the hash function has
been resolved: key shortening, zero padding, the two padding blocks
and the nested hash calls.  The `% 256` masks model the `Uint8Array`
writes building the padded key, the padding blocks and the
concatenated messages. -/
def hmacBody (H : List Nat → List Nat) (blockSize : Nat) (key message : List Nat) : List Nat :=
  let key1 := if blockSize < key.length then H key else key
  let key2 := if key1.length < blockSize
    then key1.map (fun b => b % 256) ++ List.replicate (blockSize - key1.length) 0
    else key1
  let ipad := (List.range blockSize).map (fun i => ((key2.getD i 0) ^^^ 54) % 256)
  let opad := (List.range blockSize).map (fun i => ((key2.getD i 0) ^^^ 92) % 256)
  let innerHash := H (ipad ++ message.map (fun b => b % 256))
  H (opad ++ innerHash.map (fun b => b % 256))

/-- The block size chosen by `hmacDigest`: 128 bytes only when the
algorithm lowercases to sha512, 64 bytes otherwise. -/
def blockSizeOf (algorithm : Str) : Nat :=
  if toLowerStr algorithm = "sha512".toList then 128 else 64

/-- `hmacDigest` of src/hmac.ts: resolve the hash primitive, pick the
block size (128 only for SHA-512), and run the HMAC composition. -/
def hmacDigest (eng : Engine) (algorithm : Str) (key message : List Nat) :
    Except Str (List Nat) := do
  let H ← getHashFunction eng algorithm
  pure (hmacBody H (blockSizeOf algorithm) key message)

/-- Removal of the first hyphen, modelling the `replace` call of
`canonicalizeAlgorithm`, whose hyphen pattern has no global flag and
hence replaces only the first occurrence. -/
def removeFirstHyphen : Str → Str
  | [] => []
  | c :: rest => if c = '-' then rest else c :: removeFirstHyphen rest

/-- `canonicalizeAlgorithm` of src/totp.ts. -/
def canonicalizeAlgorithm (algorithm : Str) : Except Str Str :=
  let upper := toUpperStr algorithm
  if upper.take 5 = "SHA3-".toList then
    if upper = "SHA3-224".toList ∨ upper = "SHA3-256".toList ∨
        upper = "SHA3-384".toList ∨ upper = "SHA3-512".toList
    then .ok upper
    else .error ("unknown hash algorithm: ".toList ++ algorithm)
  else
    let simple := removeFirstHyphen upper
    if simple = "SHA1".toList then .ok "SHA1".toList
    else if simple = "SHA224".toList then .ok "SHA224".toList
    else if simple = "SHA256".toList then .ok "SHA256".toList
    else if simple = "SHA384".toList then .ok "SHA384".toList
    else if simple = "SHA512".toList then .ok "SHA512".toList
    else .error ("unknown hash algorithm: ".toList ++ algorithm)

/-- The HMAC composition as the spec words it: oversized keys are
hashed, the key is zero-padded to the block size, and the digest is
`hash(pad(key, 0x5c) ++ hash(pad(key, 0x36) ++ message))`. -/
def hmacSpec (H : List Nat → List Nat) (B : Nat) (key message : List Nat) : List Nat :=
  let key1 := if B < key.length then H key else key
  let keyP := key1 ++ List.replicate (B - key1.length) 0
  H ((keyP.map (fun b => b ^^^ 92)) ++ H ((keyP.map (fun b => b ^^^ 54)) ++ message))

/-- The byte-filling loop of `uintDecode` of src/hotp.ts, filling `n`
byte positions from the right and breaking off (leaving zeros on the
left) once the accumulator is exhausted.  `acc & 255` is `acc % 256`
(E-modulus) and the subtract-then-divide is an exact division. -/
def uintDecodeAux : Nat → Int → List Nat
  | 0, _ => []
  | n + 1, acc =>
      if acc = 0 then List.replicate (n + 1) 0
      else uintDecodeAux n ((acc - acc % 256) / 256) ++ [(acc % 256).toNat]

/-- `uintDecode` of src/hotp.ts: an 8-entry byte buffer filled from the
least significant end. -/
def uintDecode (num : Int) : List Nat := uintDecodeAux 8 num

/-- The straightforward fixed-width big-endian byte encoding. -/
def beBytes (n : Nat) (c : Nat) : List Nat :=
  (List.range n).map (fun i => c / 256 ^ (n - 1 - i) % 256)

/-- `timingSafeEqual` of src/hotp.ts: throws on unequal lengths, and
otherwise ors together the xors of the code units. -/
def timingSafeEqual (a b : Str) : Except Str Bool :=
  if a.length ≠ b.length then .error "input strings must have the same length".toList
  else .ok (((a.zip b).foldl (fun o p => o ||| (p.1.toNat ^^^ p.2.toNat)) 0) == 0)

/-- The truncation offset: low four bits of the last digest byte. -/
def dynOffset (digest : List Nat) : Nat := (digest.getD (digest.length - 1) 0) % 16

/-- The 31-bit dynamic binary code of `HOTP.generate`: four digest
bytes starting at the offset, the top bit of the first masked off. -/
def dynValue (digest : List Nat) : Nat :=
  ((digest.getD (dynOffset digest) 0 % 128) <<< 24) |||
    ((digest.getD (dynOffset digest + 1) 0 % 256) <<< 16) |||
    ((digest.getD (dynOffset digest + 2) 0 % 256) <<< 8) |||
    (digest.getD (dynOffset digest + 3) 0 % 256)

/-- Static `HOTP.generate` of src/hotp.ts. -/
def hotpGenerate (eng : Engine) (secret : List Nat) (algorithm : Str) (digits : Nat)
    (counter : Int) : Except Str Str := do
  let digest ← hmacDigest eng algorithm secret (uintDecode counter)
  pure (padStart (natToChars (dynValue digest % 10 ^ digits)) digits (digitChar 0))

/-- The token `HOTP.generate` produces once the hash function is
resolved. -/
def hotpTokenPure (H : List Nat → List Nat) (B : Nat) (secret : List Nat) (digits : Nat)
    (counter : Int) : Str :=
  padStart (natToChars (dynValue (hmacBody H B secret (uintDecode counter)) % 10 ^ digits))
    digits (digitChar 0)

/-- The scanned counter range `[counter - window, counter + window]`
of `HOTP.validate`, in ascending order (empty when `window < 0`). -/
def scanRange (counter window : Int) : List Int :=
  (List.range (2 * window + 1).toNat).map (fun (k : Nat) => counter - window + (k : Int))

/-- The scanning loop of static `HOTP.validate`: generate a candidate
for each counter, compare in fixed time, record the delta of the last
match, and propagate any thrown error. -/
def hotpScan (eng : Engine) (token : Str) (secret : List Nat) (algorithm : Str)
    (digits : Nat) (counter : Int) : List Int → Option Int → Except Str (Option Int)
  | [], delta => .ok delta
  | i :: rest, delta =>
      match hotpGenerate eng secret algorithm digits i with
      | .error e => .error e
      | .ok generatedToken =>
          match timingSafeEqual token generatedToken with
          | .error e => .error e
          | .ok eq =>
              hotpScan eng token secret algorithm digits counter rest
                (if eq then some (i - counter) else delta)

/-- Static `HOTP.validate` of src/hotp.ts. -/
def hotpValidate (eng : Engine) (token : Str) (secret : List Nat) (algorithm : Str)
    (digits : Nat) (counter window : Int) : Except Str (Option Int) :=
  if token.length ≠ digits then .ok none
  else hotpScan eng token secret algorithm digits counter (scanRange counter window) none

/-- The state of an `HOTP` class instance (src/hotp.ts). -/
structure HOTP where
  issuer : Str
  label : Str
  issuerInLabel : Bool
  secret : List Nat
  algorithm : Str
  digits : Nat
  counter : Int

deriving DecidableEq

/-- The `secret` constructor option: explicit bytes (a `Secret`
object) or a base32 string.  The omitted-secret path draws platform
random bytes and is outside the pure model. -/
inductive SecretArg where
  | bytes (b : List Nat)
  | str (s : Str)
deriving DecidableEq

/-- Resolution of a `secret` option as the constructors do it. -/
def resolveSecret : SecretArg → Except Str (List Nat)
  | .bytes b => .ok b
  | .str s => base32Decode s

/-- The option bag of the `HOTP` constructor; `none` means the option
was omitted and the constructor default applies. -/
structure HOTPOptions where
  issuer : Option Str
  label : Option Str
  issuerInLabel : Option Bool
  secret : SecretArg
  algorithm : Option Str
  digits : Option Nat
  counter : Option Int

/-- The `HOTP` constructor of src/hotp.ts: applies defaults, resolves
the secret, and merely uppercases the algorithm name. -/
def hotpNew (o : HOTPOptions) : Except Str HOTP := do
  let secretBytes ← resolveSecret o.secret
  pure {
    issuer := o.issuer.getD []
    label := o.label.getD "OTPAuth".toList
    issuerInLabel := o.issuerInLabel.getD true
    secret := secretBytes
    algorithm := toUpperStr (o.algorithm.getD "SHA1".toList)
    digits := o.digits.getD 6
    counter := o.counter.getD 0 }

/-- Instance-bound `generate` of src/hotp.ts: when the counter argument
is omitted, the default expression `this.counter++` reads the bound
counter and post-increments it; an explicit argument leaves the
instance untouched. -/
def hotpGenerateInstance (eng : Engine) (h : HOTP) (counterArg : Option Int) :
    Except Str Str × HOTP :=
  match counterArg with
  | some c => (hotpGenerate eng h.secret h.algorithm h.digits c, h)
  | none => (hotpGenerate eng h.secret h.algorithm h.digits h.counter,
      { h with counter := h.counter + 1 })

/-- Instance-bound `validate` of src/hotp.ts: delegates to the static
validate with the instance fields, defaulting the counter argument to
the current bound counter and the window to 1, without mutating any
field. -/
def hotpValidateInstance (eng : Engine) (h : HOTP) (token : Str)
    (counterArg : Option Int) (window : Option Int) : Except Str (Option Int) × HOTP :=
  (hotpValidate eng token h.secret h.algorithm h.digits (counterArg.getD h.counter)
    (window.getD 1), h)

/-- The state of a `TOTP` class instance (src/totp.ts). -/
structure TOTP where
  issuer : Str
  label : Str
  issuerInLabel : Bool
  secret : List Nat
  algorithm : Str
  digits : Nat
  period : Nat

deriving DecidableEq

/-- The option bag of the `TOTP` constructor. -/
structure TOTPOptions where
  issuer : Option Str
  label : Option Str
  issuerInLabel : Option Bool
  secret : SecretArg
  algorithm : Option Str
  digits : Option Nat
  period : Option Nat

/-- The `TOTP` constructor of src/totp.ts: applies defaults, resolves
the secret, and canonicalizes the algorithm name. -/
def totpNew (o : TOTPOptions) : Except Str TOTP := do
  let secretBytes ← resolveSecret o.secret
  let alg ← canonicalizeAlgorithm (o.algorithm.getD "SHA1".toList)
  pure {
    issuer := o.issuer.getD []
    label := o.label.getD "OTPAuth".toList
    issuerInLabel := o.issuerInLabel.getD true
    secret := secretBytes
    algorithm := alg
    digits := o.digits.getD 6
    period := o.period.getD 30 }

/-- Static `TOTP.counter` of src/totp.ts:
`Math.floor(timestamp / 1000 / period)`, with JavaScript number
arithmetic modelled exactly over the rationals. -/
def totpCounter (period : Nat) (timestamp : Int) : Int :=
  ((timestamp : ℚ) / 1000 / (period : ℚ)).floor

/-- Static `TOTP.generate` of src/totp.ts: delegates to static
`HOTP.generate` at the time-derived counter. -/
def totpGenerate (eng : Engine) (secret : List Nat) (algorithm : Str) (digits : Nat)
    (period : Nat) (timestamp : Int) : Except Str Str :=
  hotpGenerate eng secret algorithm digits (totpCounter period timestamp)

/-- The enumerated algorithm tags of the data model. -/
def canonicalAlgorithms : List Str :=
  ["SHA1".toList, "SHA224".toList, "SHA256".toList, "SHA384".toList, "SHA512".toList,
    "SHA3-224".toList, "SHA3-256".toList, "SHA3-384".toList, "SHA3-512".toList]

/-- Option bag requesting the unsupported algorithm MD5 from the
`HOTP` constructor. -/
def c7HotpOptions : HOTPOptions where
  issuer := none
  label := none
  issuerInLabel := none
  secret := .bytes [1]
  algorithm := some "MD5".toList
  digits := none
  counter := none

/-- The instance the `HOTP` constructor builds from `c7HotpOptions`. -/
def c7HotpResult : HOTP where
  issuer := []
  label := "OTPAuth".toList
  issuerInLabel := true
  secret := [1]
  algorithm := "MD5".toList
  digits := 6
  counter := 0

/-- Option bag requesting sha3-256 from the `TOTP` constructor. -/
def c7TotpOptions : TOTPOptions where
  issuer := none
  label := none
  issuerInLabel := none
  secret := .bytes [1]
  algorithm := some "sha3-256".toList
  digits := none
  period := none

/-- The instance the `TOTP` constructor builds from `c7TotpOptions`. -/
def c7TotpResult : TOTP where
  issuer := []
  label := "OTPAuth".toList
  issuerInLabel := true
  secret := [1]
  algorithm := "SHA3-256".toList
  digits := 6
  period := 30

/-- An uppercase hexadecimal digit, as the percent-encoders emit. -/
def hexDigitChar (d : Nat) : Char :=
  if d < 10 then digitChar d else Char.ofNat (55 + d)

/-- A percent-escape for one byte. -/
def percentByte (b : Nat) : Str := '%' :: hexDigitChar (b / 16) :: [hexDigitChar (b % 16)]

/-- The UTF-8 bytes of a scalar value. -/
def utf8Bytes (c : Char) : List Nat :=
  let n := c.toNat
  if n < 128 then [n]
  else if n < 2048 then [192 + n / 64, 128 + n % 64]
  else if n < 65536 then [224 + n / 4096, 128 + (n / 64) % 64, 128 + n % 64]
  else [240 + n / 262144, 128 + (n / 4096) % 64, 128 + (n / 64) % 64, 128 + n % 64]

/-- The characters `encodeURIComponent` leaves unescaped. -/
def isUnreservedE (c : Char) : Bool :=
  c.isAlphanum || c = '-' || c = '_' || c = '.' || c = '!' || c = '~' || c = '*' ||
    c = Char.ofNat 39 || c = '(' || c = ')'

/-- One character of `encodeURIComponent` output. -/
def encodeChar (c : Char) : Str :=
  if isUnreservedE c then [c] else ((utf8Bytes c).map percentByte).flatten

/-- Modelling `encodeURIComponent` (for strings without lone
surrogates, which `List Char` cannot represent anyway). -/
def encodeURIComponent (s : Str) : Str := (s.map encodeChar).flatten

/-- The characters the `URLSearchParams` serializer leaves unescaped. -/
def isUrlencodedSafe (c : Char) : Bool :=
  c.isAlphanum || c = '*' || c = '-' || c = '.' || c = '_'

/-- One character of the `application/x-www-form-urlencoded`
serialization used by `URLSearchParams.toString`. -/
def urlencodeChar (c : Char) : Str :=
  if isUrlencodedSafe c then [c]
  else if c = ' ' then ['+']
  else ((utf8Bytes c).map percentByte).flatten

/-- The value serialization of `URLSearchParams.toString`. -/
def urlencode (s : Str) : Str := (s.map urlencodeChar).flatten

/-- `HOTP.prototype.toString` of src/hotp.ts: label from issuer and
label via `encodeURIComponent`, query parameters in the fixed order
secret, algorithm, digits, counter, then issuer when nonempty. -/
def hotpToString (h : HOTP) : Str :=
  "otpauth://hotp/".toList ++
    (if 0 < h.issuer.length ∧ h.issuerInLabel
      then encodeURIComponent h.issuer ++ ':' :: encodeURIComponent h.label
      else encodeURIComponent h.label) ++
    '?' :: ("secret=".toList ++ urlencode (base32Encode h.secret) ++
      "&algorithm=".toList ++ urlencode h.algorithm ++
      "&digits=".toList ++ urlencode (natToChars h.digits) ++
      "&counter=".toList ++ urlencode (intToChars h.counter) ++
      (if 0 < h.issuer.length then "&issuer=".toList ++ urlencode h.issuer else []))

/-- `TOTP.prototype.toString` of src/totp.ts. -/
def totpToString (t : TOTP) : Str :=
  "otpauth://totp/".toList ++
    (if 0 < t.issuer.length ∧ t.issuerInLabel
      then encodeURIComponent t.issuer ++ ':' :: encodeURIComponent t.label
      else encodeURIComponent t.label) ++
    '?' :: ("secret=".toList ++ urlencode (base32Encode t.secret) ++
      "&algorithm=".toList ++ urlencode t.algorithm ++
      "&digits=".toList ++ urlencode (natToChars t.digits) ++
      "&period=".toList ++ urlencode (natToChars t.period) ++
      (if 0 < t.issuer.length then "&issuer=".toList ++ urlencode t.issuer else []))

/-- Value of a hexadecimal digit character, either case. -/
def hexVal (c : Char) : Option Nat :=
  if '0' ≤ c ∧ c ≤ '9' then some (c.toNat - 48)
  else if 'A' ≤ c ∧ c ≤ 'F' then some (c.toNat - 55)
  else if 'a' ≤ c ∧ c ≤ 'f' then some (c.toNat - 87)
  else none

/-- One percent-escape cluster of `decodeURIComponent`, read from the
input that follows a `%`: the decoded character and the remaining
input, or the `URIError` of ECMA-262 (malformed escapes, truncated
sequences, overlong forms and surrogate code points are rejected). -/
def decodeEscape : Str → Except Str (Char × Str)
  | h1 :: h2 :: rest1 =>
      match hexVal h1, hexVal h2 with
      | some a, some b =>
          let b1 := 16 * a + b
          if b1 < 128 then .ok (Char.ofNat b1, rest1)
          else if 194 ≤ b1 ∧ b1 ≤ 223 then
            match rest1 with
            | '%' :: g1 :: g2 :: rest2 =>
                match hexVal g1, hexVal g2 with
                | some a2, some b2 =>
                    let c1 := 16 * a2 + b2
                    if 128 ≤ c1 ∧ c1 < 192 then
                      .ok (Char.ofNat ((b1 - 192) * 64 + (c1 - 128)), rest2)
                    else .error "URI malformed".toList
                | _, _ => .error "URI malformed".toList
            | _ => .error "URI malformed".toList
          else if 224 ≤ b1 ∧ b1 ≤ 239 then
            match rest1 with
            | '%' :: g1 :: g2 :: '%' :: k1 :: k2 :: rest3 =>
                match hexVal g1, hexVal g2, hexVal k1, hexVal k2 with
                | some a2, some b2, some a3, some b3 =>
                    let c1 := 16 * a2 + b2
                    let c2 := 16 * a3 + b3
                    if (128 ≤ c1 ∧ c1 < 192) ∧ (128 ≤ c2 ∧ c2 < 192) ∧
                        (b1 = 224 → 160 ≤ c1) ∧ (b1 = 237 → c1 < 160) then
                      .ok (Char.ofNat ((b1 - 224) * 4096 + (c1 - 128) * 64 + (c2 - 128)), rest3)
                    else .error "URI malformed".toList
                | _, _, _, _ => .error "URI malformed".toList
            | _ => .error "URI malformed".toList
          else if 240 ≤ b1 ∧ b1 ≤ 244 then
            match rest1 with
            | '%' :: g1 :: g2 :: '%' :: k1 :: k2 :: '%' :: m1 :: m2 :: rest4 =>
                match hexVal g1, hexVal g2, hexVal k1, hexVal k2, hexVal m1, hexVal m2 with
                | some a2, some b2, some a3, some b3, some a4, some b4 =>
                    let c1 := 16 * a2 + b2
                    let c2 := 16 * a3 + b3
                    let c3 := 16 * a4 + b4
                    if (128 ≤ c1 ∧ c1 < 192) ∧ (128 ≤ c2 ∧ c2 < 192) ∧
                        (128 ≤ c3 ∧ c3 < 192) ∧ (b1 = 240 → 144 ≤ c1) ∧
                        (b1 = 244 → c1 < 144) then
                      .ok (Char.ofNat ((b1 - 240) * 262144 + (c1 - 128) * 4096 +
                        (c2 - 128) * 64 + (c3 - 128)), rest4)
                    else .error "URI malformed".toList
                | _, _, _, _, _, _ => .error "URI malformed".toList
            | _ => .error "URI malformed".toList
          else .error "URI malformed".toList
      | _, _ => .error "URI malformed".toList
  | _ => .error "URI malformed".toList

/-- The decoding loop of `decodeURIComponent`, driven by a fuel
argument: each step either copies one plain character or consumes one
percent-escape cluster.  A fuel of the input length is always enough,
since every step shortens the input. -/
def decodeAux : Nat → Str → Except Str Str
  | _, [] => .ok []
  | 0, _ :: _ => .error "URI malformed".toList
  | fuel + 1, c :: rest =>
      if c = '%' then
        match decodeEscape rest with
        | .ok (ch, rem) =>
            match decodeAux fuel rem with
            | .ok s => .ok (ch :: s)
            | .error e => .error e
        | .error e => .error e
      else
        match decodeAux fuel rest with
        | .ok s => .ok (c :: s)
        | .error e => .error e

/-- Modelling `decodeURIComponent`: percent-escapes are decoded as
strict UTF-8; all other characters pass through unchanged. -/
def decodeURIComponent (s : Str) : Except Str Str := decodeAux s.length s

/-- Splitting at every occurrence of a separator character, modelling
`String.prototype.split` with a single-character pattern. -/
def splitSep (sep : Char) : Str → List Str
  | [] => [[]]
  | c :: rest =>
      if c = sep then [] :: splitSep sep rest
      else
        match splitSep sep rest with
        | [] => [[c]]
        | p :: ps => (c :: p) :: ps

/-- Splitting at the first `=`, modelling `split(/=(.*)/, 2)`: the
second component is `none` when the string has no `=`. -/
def splitFirstEq : Str → Str × Option Str
  | [] => ([], none)
  | c :: rest =>
      if c = '=' then ([], some rest)
      else ((c :: (splitFirstEq rest).1), (splitFirstEq rest).2)

/-- Splitting at the last `?`: the separator chosen by the greedy
label group of OTPURI_REGEX. -/
def splitLastQ : Str → Option (Str × Str)
  | [] => none
  | c :: rest =>
      match splitLastQ rest with
      | some (a, b) => some (c :: a, b)
      | none => if c = '?' then some ([], rest) else none

/-- A character of the parameter-key class `[A-Z0-9.~_-]` under the
case-insensitive flag. -/
def isKeyChar (c : Char) : Bool :=
  c.isAlpha || c.isDigit || c = '.' || c = '~' || c = '_' || c = '-'

/-- One `key=value` unit of the parameter block of OTPURI_REGEX. -/
def paramPieceOk (piece : Str) : Bool :=
  let k := piece.takeWhile isKeyChar
  decide (k ≠ []) &&
    (match piece.drop k.length with
      | '=' :: v => v.all (fun c => decide (c ≠ '?') && decide (c ≠ '&'))
      | _ => false)

/-- A character the regex dot cannot match. -/
def isLineTerminator (c : Char) : Bool :=
  c = Char.ofNat 10 || c = Char.ofNat 13 || c = Char.ofNat 8232 || c = Char.ofNat 8233

/-- The label group: one or more dot-matchable characters. -/
def labelOk (L : Str) : Bool := decide (L ≠ []) && L.all (fun c => !isLineTerminator c)

/-- The anchored match of OTPURI_REGEX, decomposed: scheme, type
segment, label segment and parameter block.  Since a valid parameter
block never contains a question mark, the greedy label group forces
the separator to be the last question mark of the string. -/
def uriMatch (s : Str) : Option (Str × Str × Str) :=
  match splitLastQ s with
  | none => none
  | some (before, P) =>
      if (splitSep '&' P).all paramPieceOk then
        if toLowerStr (before.take 10) = "otpauth://".toList ∧
            (toLowerStr ((before.drop 10).take 4) = "hotp".toList ∨
              toLowerStr ((before.drop 10).take 4) = "totp".toList) ∧
            (before.drop 14).take 1 = ['/'] ∧ labelOk (before.drop 15)
        then some ((before.drop 10).take 4, before.drop 15, P)
        else none
      else none

/-- Decoding of one `key=value` unit as the parameter-collecting
`reduce` does it: split at the first `=`, percent-decode both halves,
lowercase the key. -/
def decodePiece (piece : Str) : Except Str (Str × Str) := do
  let k ← decodeURIComponent (splitFirstEq piece).1
  let v ← decodeURIComponent ((splitFirstEq piece).2.getD [])
  pure (toLowerStr k, v)

/-- Decoding of the whole parameter list in order. -/
def mapPieces : List Str → Except Str (List (Str × Str))
  | [] => .ok []
  | p :: ps => do
      let kv ← decodePiece p
      let rest ← mapPieces ps
      pure (kv :: rest)

/-- Object-style lookup: the last assignment to a key wins. -/
def lookupParam (ps : List (Str × Str)) (k : Str) : Option Str :=
  ((ps.filter (fun kv => kv.1 = k)).getLast?).map (fun kv => kv.2)

/-- INTEGER_REGEX of src/uri.ts: an optionally signed digit string. -/
def integerTest (s : Str) : Bool :=
  match s with
  | [] => false
  | c :: rest =>
      if c = '+' ∨ c = '-' then decide (rest ≠ []) && rest.all Char.isDigit
      else (c :: rest).all Char.isDigit

/-- The digit part of POSITIVE_INTEGER_REGEX: `[1-9]\d*`. -/
def posDigits (s : Str) : Bool :=
  match s with
  | [] => false
  | c :: rest => (decide ('1' ≤ c) && decide (c ≤ '9')) && rest.all Char.isDigit

/-- POSITIVE_INTEGER_REGEX of src/uri.ts: `^\+?[1-9]\d*$`. -/
def positiveIntegerTest (s : Str) : Bool :=
  match s with
  | '+' :: rest => posDigits rest
  | _ => posDigits s

/-- SECRET_REGEX of src/uri.ts: base32 characters (either case) with
optional trailing padding. -/
def isB32Char (c : Char) : Bool :=
  (decide ('2' ≤ c) && decide (c ≤ '7')) || (decide ('A' ≤ c) && decide (c ≤ 'Z')) ||
    (decide ('a' ≤ c) && decide (c ≤ 'z'))

/-- The anchored SECRET_REGEX test. -/
def secretTest (s : Str) : Bool :=
  let p := s.takeWhile isB32Char
  decide (p ≠ []) && (s.drop p.length).all (fun c => c = '=')

/-- JavaScript whitespace for `String.prototype.trim`. -/
def isJsSpace (c : Char) : Bool :=
  c = ' ' || c = Char.ofNat 9 || c = Char.ofNat 10 || c = Char.ofNat 11 ||
    c = Char.ofNat 12 || c = Char.ofNat 13 || c = Char.ofNat 160 ||
    c = Char.ofNat 8232 || c = Char.ofNat 8233 || c = Char.ofNat 65279

/-- Modelling `String.prototype.trim`. -/
def trimJS (s : Str) : Str :=
  ((s.dropWhile isJsSpace).reverse.dropWhile isJsSpace).reverse

/-- The issuer parameter as read by `URI.parse`: present only when the
decoded value is truthy, i.e. a nonempty string. -/
def issuerParam (uriParams : List (Str × Str)) : Option Str :=
  match lookupParam uriParams "issuer".toList with
  | some v => if v ≠ [] then some v else none
  | none => none

/-- Issuer/label resolution of `URI.parse`: the decoded label is split
at colons; a two-part label carries its own issuer prefix, any other
shape uses the first part as label and records `issuerInLabel: false`
when a separate issuer parameter is present. -/
def resolveLabel (issuer0 : Option Str) (decodedLabel : Str) :
    Option Str × Str × Option Bool :=
  match splitSep ':' decodedLabel with
  | [p1, p2] =>
      (if issuer0 = none then some (trimJS p1) else issuer0, trimJS p2, none)
  | parts =>
      (issuer0, trimJS (parts.headD []), if issuer0 ≠ none then some false else none)

/-- The shared tail of `URI.parse`: label/issuer resolution, secret,
algorithm and digits parameters, in source order.  Returns the
constructor options it accumulates in `config`. -/
def parseCommon (uriParams : List (Str × Str)) (rawLabel : Str) :
    Except Str (Option Str × Str × Option Bool × List Nat × Option Str × Option Nat) := do
  let decodedLabel ← decodeURIComponent rawLabel
  let step1 : Option Str × Str × Option Bool :=
    resolveLabel (issuerParam uriParams) decodedLabel
  let secretBytes ←
    match lookupParam uriParams "secret".toList with
    | some v =>
        if secretTest v then base32Decode v
        else Except.error "missing or invalid parameter: secret".toList
    | none => Except.error "missing or invalid parameter: secret".toList
  let algorithm1 : Option Str := lookupParam uriParams "algorithm".toList
  let digits1 : Option Nat ←
    match lookupParam uriParams "digits".toList with
    | some v =>
        if positiveIntegerTest v then pure (some (parseIntJS v).toNat)
        else Except.error "missing or invalid parameter: digits".toList
    | none => pure none
  pure (step1.1, step1.2.1, step1.2.2, secretBytes, algorithm1, digits1)

/-- The tail of the hotp branch of `URI.parse` once the counter
parameter has been validated and parsed. -/
def hotpFinish (uriParams : List (Str × Str)) (rawLabel : Str) (counterVal : Int) :
    Except Str (HOTP ⊕ TOTP) :=
  match parseCommon uriParams rawLabel with
  | .error e => .error e
  | .ok (issuer1, label1, iil1, secretBytes, algorithm1, digits1) =>
      match hotpNew {
        issuer := issuer1
        label := some label1
        issuerInLabel := iil1
        secret := .bytes secretBytes
        algorithm := algorithm1
        digits := digits1
        counter := some counterVal } with
      | .error e => .error e
      | .ok h => .ok (.inl h)

/-- The tail of the totp branch of `URI.parse` once the period
parameter has been validated and parsed. -/
def totpFinish (uriParams : List (Str × Str)) (rawLabel : Str) (periodOpt : Option Nat) :
    Except Str (HOTP ⊕ TOTP) :=
  match parseCommon uriParams rawLabel with
  | .error e => .error e
  | .ok (issuer1, label1, iil1, secretBytes, algorithm1, digits1) =>
      match totpNew {
        issuer := issuer1
        label := some label1
        issuerInLabel := iil1
        secret := .bytes secretBytes
        algorithm := algorithm1
        digits := digits1
        period := periodOpt } with
      | .error e => .error e
      | .ok t => .ok (.inr t)

/-- `URI.parse` of src/uri.ts. -/
def uriParse (uri : Str) : Except Str (HOTP ⊕ TOTP) :=
  match uriMatch uri with
  | none => .error "invalid URI format".toList
  | some (uriType, rawLabel, rawParams) =>
      match mapPieces (splitSep '&' rawParams) with
      | .error e => .error e
      | .ok uriParams =>
          if toLowerStr uriType = "hotp".toList then
            match lookupParam uriParams "counter".toList with
            | some v =>
                if integerTest v then hotpFinish uriParams rawLabel (parseIntJS v)
                else .error "missing or invalid parameter: counter".toList
            | none => .error "missing or invalid parameter: counter".toList
          else if toLowerStr uriType = "totp".toList then
            match (match lookupParam uriParams "period".toList with
              | some v =>
                  if positiveIntegerTest v then Except.ok (some (parseIntJS v).toNat)
                  else Except.error "missing or invalid parameter: period".toList
              | none => Except.ok none) with
            | .error e => .error e
            | .ok periodOpt => totpFinish uriParams rawLabel periodOpt
          else .error "unknown OTP type".toList

/-- Constructor options with a colon inside the label. -/
def c6Options : TOTPOptions where
  issuer := none
  label := some "a:b".toList
  issuerInLabel := none
  secret := .bytes [0]
  algorithm := none
  digits := none
  period := none

/-- The configuration the `TOTP` constructor builds from `c6Options`. -/
def c6Built : TOTP where
  issuer := []
  label := "a:b".toList
  issuerInLabel := true
  secret := [0]
  algorithm := "SHA1".toList
  digits := 6
  period := 30

/-- What `URI.parse` recovers from the stringified `c6Built`. -/
def c6Reparsed : TOTP where
  issuer := "a".toList
  label := "b".toList
  issuerInLabel := true
  secret := [0]
  algorithm := "SHA1".toList
  digits := 6
  period := 30

/-- The character class preserved verbatim by every codec layer of the
URI round trip: letters, digits, dot, underscore and hyphen. -/
def safeChar (c : Char) : Bool := c.isAlphanum || c = '.' || c = '_' || c = '-'

/-- Joining parameter pieces with ampersands, the inverse view of
`splitSep` for the rendered query string. -/
def joinAmp : List Str → Str
  | [] => []
  | [p] => p
  | p :: ps => p ++ '&' :: joinAmp ps

/-- A concrete hotp configuration for the C6 witness. -/
def c6wHotp : HOTP where
  issuer := "Ex".toList
  label := "alice".toList
  issuerInLabel := true
  secret := [1, 2, 3]
  algorithm := "SHA1".toList
  digits := 6
  counter := 0

/-- A concrete totp configuration for the C6 witness. -/
def c6wTotp : TOTP where
  issuer := []
  label := "bob".toList
  issuerInLabel := true
  secret := [255]
  algorithm := "SHA256".toList
  digits := 8
  period := 30

/-- The decoder loop emits one byte each time the pending bit count
crosses 8, hence exactly `floor((bits + 5 n) / 8)` bytes in total. -/
theorem decodeCore_length (syms : List Nat) : ∀ bits value, bits < 8 →
    (decodeCore syms bits value).length = (bits + 5 * syms.length) / 8 := by
  induction syms with
  | nil => intro bits value h; simp [decodeCore]; omega
  | cons s rest ih =>
      intro bits value h
      by_cases h8 : 8 ≤ bits + 5
      · have h2 := ih (bits + 5 - 8) (value * 32 + s) (by omega)
        simp only [decodeCore, if_pos h8, List.length_cons, h2]
        omega
      · have h2 := ih (bits + 5) (value * 32 + s) (by omega)
        simp only [decodeCore, if_neg h8, List.length_cons, h2]
        omega

/-- Mid-stream simulation invariant for the base32 round trip: feeding
the encoder output into the decoder reproduces the remaining bytes,
preceded by the byte currently in flight (whose high bits sit in the
decoder accumulator and whose low `be` bits sit in the encoder
accumulator). -/
theorem base32_roundtrip_core (bs : List Nat) : ∀ be ve vd : Nat,
    (∀ b ∈ bs, b < 256) → be < 5 →
    decodeCore (encodeCore bs be ve) ((8 - be) % 8) vd =
      (if be = 0 then [] else [(vd % 2 ^ (8 - be)) * 2 ^ be + ve % 2 ^ be]) ++ bs := by
  induction bs with
  | nil =>
      intro be ve vd _ hbe
      interval_cases be <;> simp [encodeCore, decodeCore] <;> omega
  | cons b rest ih =>
      intro be ve vd h hbe
      have hb : b < 256 := h b (by simp)
      have hr : ∀ x ∈ rest, x < 256 := fun x hx => h x (by simp [hx])
      interval_cases be
      · -- one symbol emitted, no byte completed by the decoder yet
        have he : encodeCore (b :: rest) 0 ve =
            ((ve * 256 + b) / 8) % 32 :: encodeCore rest 3 (ve * 256 + b) := rfl
        have hd : decodeCore (((ve * 256 + b) / 8) % 32 :: encodeCore rest 3 (ve * 256 + b)) 0 vd =
            decodeCore (encodeCore rest 3 (ve * 256 + b)) 5 (vd * 32 + ((ve * 256 + b) / 8) % 32) := rfl
        rw [he, hd, ih 3 (ve * 256 + b) (vd * 32 + ((ve * 256 + b) / 8) % 32) hr (by omega)]
        simp
        omega
      · -- one symbol emitted, decoder completes the in-flight byte
        have he : encodeCore (b :: rest) 1 ve =
            ((ve * 256 + b) / 16) % 32 :: encodeCore rest 4 (ve * 256 + b) := rfl
        have hd : decodeCore (((ve * 256 + b) / 16) % 32 :: encodeCore rest 4 (ve * 256 + b)) 7 vd =
            ((vd * 32 + ((ve * 256 + b) / 16) % 32) / 16) % 256 ::
              decodeCore (encodeCore rest 4 (ve * 256 + b)) 4 (vd * 32 + ((ve * 256 + b) / 16) % 32) := rfl
        rw [he, hd, ih 4 (ve * 256 + b) (vd * 32 + ((ve * 256 + b) / 16) % 32) hr (by omega)]
        simp
        constructor
        · omega
        · omega
      · -- two symbols emitted, decoder completes both pending bytes
        have he : encodeCore (b :: rest) 2 ve =
            ((ve * 256 + b) / 32) % 32 :: ((ve * 256 + b) / 1) % 32 ::
              encodeCore rest 0 (ve * 256 + b) := rfl
        have hd : decodeCore (((ve * 256 + b) / 32) % 32 :: ((ve * 256 + b) / 1) % 32 ::
              encodeCore rest 0 (ve * 256 + b)) 6 vd =
            ((vd * 32 + ((ve * 256 + b) / 32) % 32) / 8) % 256 ::
              (((vd * 32 + ((ve * 256 + b) / 32) % 32) * 32 + ((ve * 256 + b) / 1) % 32) / 1) % 256 ::
              decodeCore (encodeCore rest 0 (ve * 256 + b)) 0
                ((vd * 32 + ((ve * 256 + b) / 32) % 32) * 32 + ((ve * 256 + b) / 1) % 32) := rfl
        rw [he, hd, ih 0 (ve * 256 + b)
          ((vd * 32 + ((ve * 256 + b) / 32) % 32) * 32 + ((ve * 256 + b) / 1) % 32) hr (by omega)]
        simp
        constructor
        · omega
        · omega
      · -- two symbols emitted, decoder completes the in-flight byte
        have he : encodeCore (b :: rest) 3 ve =
            ((ve * 256 + b) / 64) % 32 :: ((ve * 256 + b) / 2) % 32 ::
              encodeCore rest 1 (ve * 256 + b) := rfl
        have hd : decodeCore (((ve * 256 + b) / 64) % 32 :: ((ve * 256 + b) / 2) % 32 ::
              encodeCore rest 1 (ve * 256 + b)) 5 vd =
            ((vd * 32 + ((ve * 256 + b) / 64) % 32) / 4) % 256 ::
              decodeCore (encodeCore rest 1 (ve * 256 + b)) 7
                ((vd * 32 + ((ve * 256 + b) / 64) % 32) * 32 + ((ve * 256 + b) / 2) % 32) := rfl
        rw [he, hd, ih 1 (ve * 256 + b)
          ((vd * 32 + ((ve * 256 + b) / 64) % 32) * 32 + ((ve * 256 + b) / 2) % 32) hr (by omega)]
        simp
        constructor
        · omega
        · omega
      · -- two symbols emitted, decoder completes the in-flight byte
        have he : encodeCore (b :: rest) 4 ve =
            ((ve * 256 + b) / 128) % 32 :: ((ve * 256 + b) / 4) % 32 ::
              encodeCore rest 2 (ve * 256 + b) := rfl
        have hd : decodeCore (((ve * 256 + b) / 128) % 32 :: ((ve * 256 + b) / 4) % 32 ::
              encodeCore rest 2 (ve * 256 + b)) 4 vd =
            ((vd * 32 + ((ve * 256 + b) / 128) % 32) / 2) % 256 ::
              decodeCore (encodeCore rest 2 (ve * 256 + b)) 6
                ((vd * 32 + ((ve * 256 + b) / 128) % 32) * 32 + ((ve * 256 + b) / 4) % 32) := rfl
        rw [he, hd, ih 2 (ve * 256 + b)
          ((vd * 32 + ((ve * 256 + b) / 128) % 32) * 32 + ((ve * 256 + b) / 4) % 32) hr (by omega)]
        simp
        constructor
        · omega
        · omega

/-- Every symbol value produced by the encoder drain loop is below 32. -/
theorem drain_fst_lt : ∀ bits value, ∀ s ∈ (drain bits value).1, s < 32
  | b + 5, value => by
      intro s hs
      simp only [drain, List.mem_cons] at hs
      rcases hs with h | h
      · omega
      · exact drain_fst_lt b value s h
  | 0, _ => by intro s hs; simp [drain] at hs
  | 1, _ => by intro s hs; simp [drain] at hs
  | 2, _ => by intro s hs; simp [drain] at hs
  | 3, _ => by intro s hs; simp [drain] at hs
  | 4, _ => by intro s hs; simp [drain] at hs

/-- Every symbol value produced by the encoder is below 32. -/
theorem encodeCore_lt32 (bs : List Nat) : ∀ be ve, ∀ s ∈ encodeCore bs be ve, s < 32 := by
  induction bs with
  | nil =>
      intro be ve s hs
      by_cases h : 0 < be
      · simp [encodeCore, h] at hs; omega
      · simp [encodeCore, h] at hs
  | cons b rest ih =>
      intro be ve s hs
      simp only [encodeCore, List.mem_append] at hs
      rcases hs with h | h
      · exact drain_fst_lt (be + 8) (ve * 256 + b) s h
      · exact ih _ _ s h

/-- Character-level facts about the base32 alphabet: each symbol
character is uppercase-stable, is not a space or padding, and maps
back to its own index. -/
theorem alpha_sym_facts : ∀ s : Fin 32,
    Char.toUpper (alphaChar s.val) = alphaChar s.val ∧
    alphaChar s.val ≠ ' ' ∧ alphaChar s.val ≠ '=' ∧
    charIdxE (alphaChar s.val) = .ok s.val := by decide

/-- Dropping-while leaves a list unchanged when no element satisfies
the predicate. -/
theorem dropWhile_of_none {p : Char → Bool} : ∀ l : Str, (∀ c ∈ l, ¬ p c) → l.dropWhile p = l := by
  intro l h
  cases l with
  | nil => rfl
  | cons a t =>
      have : ¬ p a := h a (by simp)
      simp [List.dropWhile, this]

/-- The decoder preprocessing is the identity on encoder output. -/
theorem prep_encode (bs : List Nat) : base32DecodePrep (base32Encode bs) = base32Encode bs := by
  have hall : ∀ c ∈ base32Encode bs, c ≠ ' ' ∧ c ≠ '=' ∧ Char.toUpper c = c := by
    intro c hc
    simp only [base32Encode, List.mem_map] at hc
    obtain ⟨s, hs, rfl⟩ := hc
    have h32 := encodeCore_lt32 bs 0 0 s hs
    obtain ⟨h1, h2, h3, _⟩ := alpha_sym_facts ⟨s, h32⟩
    exact ⟨h2, h3, h1⟩
  unfold base32DecodePrep
  have hf : (base32Encode bs).filter (fun c => c ≠ ' ') = base32Encode bs := by
    rw [List.filter_eq_self]
    intro a ha
    simp [(hall a ha).1]
  rw [hf]
  have hm : (base32Encode bs).map Char.toUpper = base32Encode bs := by
    have : (base32Encode bs).map Char.toUpper = (base32Encode bs).map id :=
      List.map_congr_left (fun a ha => (hall a ha).2.2)
    simpa using this
  rw [hm]
  unfold stripTrailingEqs
  rw [dropWhile_of_none _ (fun c hc => by
    have := (hall c (by simpa using hc)).2.1
    simpa using this)]
  exact List.reverse_reverse _

/-- Symbol lookup succeeds on every encoder output character. -/
theorem mapE_charIdxE (syms : List Nat) (h : ∀ s ∈ syms, s < 32) :
    mapE charIdxE (syms.map alphaChar) = .ok syms := by
  induction syms with
  | nil => rfl
  | cons s rest ih =>
      have h32 : s < 32 := h s (by simp)
      obtain ⟨_, _, _, h4⟩ := alpha_sym_facts ⟨s, h32⟩
      have hr := ih (fun x hx => h x (by simp [hx]))
      show (do
        let x ← charIdxE (alphaChar s)
        let xs ← mapE charIdxE (rest.map alphaChar)
        pure (x :: xs)) = Except.ok (s :: rest)
      rw [h4, hr]
      rfl

/-- A successful effectful map preserves length. -/
theorem mapE_ok_length (f : Char → Except Str Nat) :
    ∀ (l : Str) (out : List Nat), mapE f l = .ok out → out.length = l.length := by
  intro l
  induction l with
  | nil =>
      intro out h
      have h2 : Except.ok ([] : List Nat) = Except.ok out := h
      cases h2
      rfl
  | cons a t ih =>
      intro out h
      cases ha : f a with
      | error e =>
          rw [show mapE f (a :: t) = Except.error e from by
            show (do
              let x ← f a
              let xs ← mapE f t
              pure (x :: xs)) = Except.error e
            rw [ha]
            rfl] at h
          cases h
      | ok b =>
          cases ht : mapE f t with
          | error e =>
              rw [show mapE f (a :: t) = Except.error e from by
                show (do
                  let x ← f a
                  let xs ← mapE f t
                  pure (x :: xs)) = Except.error e
                rw [ha, ht]
                rfl] at h
              cases h
          | ok bs =>
              rw [show mapE f (a :: t) = Except.ok (b :: bs) from by
                show (do
                  let x ← f a
                  let xs ← mapE f t
                  pure (x :: xs)) = Except.ok (b :: bs)
                rw [ha, ht]
                rfl] at h
              cases h
              simp [ih bs ht]

/-- Decoding an encoded byte sequence restores it, stated as a shared
helper for the round-trip results. -/
theorem base32_encode_then_decode (bs : List Nat) (hb : ∀ x ∈ bs, x < 256) :
    base32Decode (base32Encode bs) = .ok bs := by
  unfold base32Decode
  rw [prep_encode]
  have hsy : mapE charIdxE (base32Encode bs) = .ok (encodeCore bs 0 0) :=
    mapE_charIdxE (encodeCore bs 0 0) (encodeCore_lt32 bs 0 0)
  rw [hsy]
  have hc := base32_roundtrip_core bs 0 0 0 hb (by omega)
  simp at hc
  show Except.ok (decodeCore (encodeCore bs 0 0) 0 0) = Except.ok bs
  rw [hc]

/-- C5: base32 decode inverts base32 encode on every byte sequence, and
a successful decode produces `floor(len * 5 / 8)` bytes where `len` is
the length of the input after stripping spaces and trailing padding. -/
theorem base32_decode_encode_roundtrip (bs : List Nat) (hb : ∀ x ∈ bs, x < 256)
    (s : Str) (out : List Nat) (hdec : base32Decode s = .ok out) :
    base32Decode (base32Encode bs) = .ok bs ∧
    out.length = (base32DecodePrep s).length * 5 / 8 := by
  constructor
  · exact base32_encode_then_decode bs hb
  · unfold base32Decode at hdec
    cases hmm : mapE charIdxE (base32DecodePrep s) with
    | error e => rw [hmm] at hdec; cases hdec
    | ok syms =>
        rw [hmm] at hdec
        have h2 : Except.ok (decodeCore syms 0 0) = Except.ok out := hdec
        cases h2
        rw [decodeCore_length syms 0 0 (by omega),
          mapE_ok_length charIdxE _ _ hmm]
        omega

/-- Witness for C5 at the ASCII bytes of the string Hello. -/
theorem base32_decode_encode_roundtrip_witness :
    ((∀ x ∈ ([72, 101, 108, 108, 111] : List Nat), x < 256) ∧
      base32Decode "JBSWY3DP".toList = .ok [72, 101, 108, 108, 111]) ∧
    (base32Decode (base32Encode [72, 101, 108, 108, 111]) = .ok [72, 101, 108, 108, 111] ∧
      ([72, 101, 108, 108, 111] : List Nat).length =
        (base32DecodePrep "JBSWY3DP".toList).length * 5 / 8) :=
  ⟨⟨by decide, by decide⟩,
    base32_decode_encode_roundtrip [72, 101, 108, 108, 111] (by decide)
      "JBSWY3DP".toList [72, 101, 108, 108, 111] (by decide)⟩

/-- The digit-peeling loop agrees with the reversed base-10 digit
expansion whenever the fuel suffices. -/
theorem natToCharsAux_digits : ∀ (fuel n : Nat), n ≤ fuel →
    natToCharsAux fuel n = (Nat.digits 10 n).reverse.map digitChar := by
  intro fuel
  induction fuel with
  | zero =>
      intro n h
      rw [show n = 0 from by omega, Nat.digits_zero]
      rfl
  | succ fuel ih =>
      intro n h
      unfold natToCharsAux
      by_cases h0 : n = 0
      · rw [if_pos h0, h0, Nat.digits_zero]
        rfl
      · rw [if_neg h0]
        have hdiv : n / 10 ≤ fuel := by
          have := Nat.div_lt_self (by omega : 0 < n) (by omega : 1 < 10)
          omega
        rw [ih (n / 10) hdiv,
          show Nat.digits 10 n = n % 10 :: Nat.digits 10 (n / 10) from
            Nat.digits_def' (by norm_num) (by omega),
          List.reverse_cons, List.map_append]
        rfl

/-- The computable rendering in terms of the digit expansion. -/
theorem natToChars_eq (n : Nat) :
    natToChars n = if n = 0 then [digitChar 0] else (Nat.digits 10 n).reverse.map digitChar := by
  unfold natToChars
  by_cases h : n = 0
  · rw [if_pos h, if_pos h]
  · rw [if_neg h, if_neg h, natToCharsAux_digits (n + 1) n (by omega)]

/-- A decimal digit character decodes to its value. -/
theorem digitVal_digitChar (d : Nat) (h : d < 10) : digitVal (digitChar d) = d := by
  interval_cases d <;> decide

/-- A decimal digit character is a digit character. -/
theorem digitChar_isDigit (d : Nat) (h : d < 10) : (digitChar d).isDigit = true := by
  interval_cases d <;> decide

/-- Reading back a little-endian digit list rendered most significant
first recovers its value. -/
theorem parseDigits_rev_map (L : List Nat) (h : ∀ d ∈ L, d < 10) :
    parseDigits (L.reverse.map digitChar) = Nat.ofDigits 10 L := by
  induction L with
  | nil => rfl
  | cons d T ih =>
      have hd : d < 10 := h d (by simp)
      have hT := ih (fun x hx => h x (by simp [hx]))
      rw [List.reverse_cons, List.map_append]
      show List.foldl (fun a c => a * 10 + digitVal c) 0 _ = _
      rw [List.foldl_append]
      show parseDigits (T.reverse.map digitChar) * 10 + digitVal (digitChar d) = _
      rw [hT, digitVal_digitChar d hd, Nat.ofDigits_cons]
      ring

/-- Parsing inverts decimal rendering of naturals. -/
theorem parseDigits_natToChars (n : Nat) : parseDigits (natToChars n) = n := by
  rw [natToChars_eq]
  by_cases h : n = 0
  · rw [if_pos h, h]; decide
  · rw [if_neg h, parseDigits_rev_map _ (fun d hd => Nat.digits_lt_base (by norm_num) hd),
      Nat.ofDigits_digits]

/-- Every character of a rendered natural is a decimal digit. -/
theorem natToChars_all_digit (n : Nat) : ∀ c ∈ natToChars n, c.isDigit = true := by
  intro c hc
  rw [natToChars_eq] at hc
  by_cases h : n = 0
  · rw [if_pos h] at hc
    simp at hc
    rw [hc]; decide
  · rw [if_neg h] at hc
    simp only [List.mem_map, List.mem_reverse] at hc
    obtain ⟨d, hd, rfl⟩ := hc
    exact digitChar_isDigit d (Nat.digits_lt_base (by norm_num) hd)

/-- Rendering is nonempty. -/
theorem natToChars_ne_nil (n : Nat) : natToChars n ≠ [] := by
  rw [natToChars_eq]
  by_cases h : n = 0
  · rw [if_pos h]; simp
  · rw [if_neg h]
    simp [Nat.digits_ne_nil_iff_ne_zero.mpr h]

/-- A number below `10 ^ d` renders in at most `d` characters. -/
theorem natToChars_length_le (n d : Nat) (hd : 1 ≤ d) (h : n < 10 ^ d) :
    (natToChars n).length ≤ d := by
  rw [natToChars_eq]
  by_cases h0 : n = 0
  · rw [if_pos h0]; simpa using hd
  · rw [if_neg h0]
    simp only [List.length_map, List.length_reverse]
    rw [Nat.digits_len 10 n (by norm_num) h0]
    have := (Nat.lt_pow_iff_log_lt (by norm_num) h0).mp h
    omega

/-- A nonzero natural renders with a nonzero leading digit. -/
theorem natToChars_head_nonzero (n : Nat) (h : n ≠ 0) :
    ∃ d rest, natToChars n = digitChar d :: rest ∧ 1 ≤ d ∧ d < 10 ∧
      rest = ((Nat.digits 10 n).dropLast.reverse.map digitChar) := by
  have hne : Nat.digits 10 n ≠ [] := Nat.digits_ne_nil_iff_ne_zero.mpr h
  obtain ⟨l2, a, hconc⟩ := (Nat.digits 10 n).eq_nil_or_concat.resolve_left hne
  refine ⟨a, l2.reverse.map digitChar, ?_, ?_, ?_, ?_⟩
  · rw [natToChars_eq]
    rw [if_neg h, hconc]
    simp
  · have hlast : (Nat.digits 10 n).getLast hne ≠ 0 := Nat.getLast_digit_ne_zero 10 h
    have h2 : (Nat.digits 10 n).getLast? = some a := by
      rw [hconc, List.concat_eq_append]
      exact List.getLast?_concat _
    have h4 : (Nat.digits 10 n).getLast? = some ((Nat.digits 10 n).getLast hne) :=
      List.getLast?_eq_getLast _ hne
    rw [h2] at h4
    have ha : a = (Nat.digits 10 n).getLast hne := Option.some.inj h4
    rw [← ha] at hlast
    omega
  · exact Nat.digits_lt_base (by norm_num) (by rw [hconc]; simp)
  · rw [hconc]; simp

/-- Padding reaches the requested length when the input is short. -/
theorem padStart_length (s : Str) (n : Nat) (c : Char) (h : s.length ≤ n) :
    (padStart s n c).length = n := by
  simp [padStart]
  omega

/-- Reading a list back off by positional defaults recovers the list. -/
theorem range_map_getD (l : List Nat) (f : Nat → Nat) :
    (List.range l.length).map (fun i => f (l.getD i 0)) = l.map f := by
  induction l with
  | nil => rfl
  | cons a t ih =>
      rw [List.length_cons, List.range_succ_eq_map, List.map_cons, List.map_map, List.map_cons]
      refine congrArg₂ _ rfl ?_
      rw [← ih]
      apply List.map_congr_left
      intro i _
      rfl

/-- Reducing a list of bytes modulo 256 changes nothing. -/
theorem map_mod_id (l : List Nat) (h : ∀ b ∈ l, b < 256) :
    l.map (fun b => b % 256) = l := by
  have h2 : l.map (fun b => b % 256) = l.map id :=
    List.map_congr_left (fun b hb => Nat.mod_eq_of_lt (h b hb))
  simpa using h2

/-- The xor of two bytes is a byte, so the uint8 store mask is inert. -/
theorem xor_mask (b p : Nat) (hb : b < 256) (hp : p < 256) : (b ^^^ p) % 256 = b ^^^ p :=
  Nat.mod_eq_of_lt (by
    have hb8 : b < 2 ^ 8 := by simpa using hb
    have hp8 : p < 2 ^ 8 := by simpa using hp
    have := Nat.xor_lt_two_pow hb8 hp8
    simpa using this)

/-- A resolved hash function turns `hmacDigest` into its body. -/
theorem hmacDigest_ok (eng : Engine) (alg : Str) (key msg : List Nat)
    (H : List Nat → List Nat) (hH : getHashFunction eng alg = .ok H) :
    hmacDigest eng alg key msg = .ok (hmacBody H (blockSizeOf alg) key msg) := by
  unfold hmacDigest
  rw [hH]
  rfl

/-- An unresolvable hash function turns `hmacDigest` into the same
error. -/
theorem hmacDigest_err (eng : Engine) (alg : Str) (key msg : List Nat)
    (e : Str) (hH : getHashFunction eng alg = .error e) :
    hmacDigest eng alg key msg = .error e := by
  unfold hmacDigest
  rw [hH]
  rfl

/-- The loop-and-mask body of the source HMAC agrees with the clean
composition of the spec whenever key, message and digests are
byte-valued and digests do not exceed the block size. -/
theorem hmacBody_eq_spec (H : List Nat → List Nat) (B : Nat) (key msg : List Nat)
    (hkey : ∀ b ∈ key, b < 256)
    (hHbytes : ∀ l, ∀ b ∈ H l, b < 256)
    (hHlen : ∀ l, (H l).length ≤ B)
    (hmsg : ∀ b ∈ msg, b < 256) :
    hmacBody H B key msg = hmacSpec H B key msg := by
  dsimp only [hmacBody, hmacSpec]
  generalize hk1 : (if B < key.length then H key else key) = key1
  have hk1bytes : ∀ b ∈ key1, b < 256 := by
    rw [← hk1]
    by_cases h : B < key.length
    · rw [if_pos h]; exact hHbytes key
    · rw [if_neg h]; exact hkey
  have hk1len : key1.length ≤ B := by
    rw [← hk1]
    by_cases h : B < key.length
    · rw [if_pos h]; exact hHlen key
    · rw [if_neg h]; omega
  have hk2 : (if key1.length < B
        then key1.map (fun b => b % 256) ++ List.replicate (B - key1.length) 0
        else key1) = key1 ++ List.replicate (B - key1.length) 0 := by
    by_cases h : key1.length < B
    · rw [if_pos h, map_mod_id key1 hk1bytes]
    · rw [if_neg h, show B - key1.length = 0 from by omega]
      simp
  rw [hk2]
  generalize hkP : key1 ++ List.replicate (B - key1.length) 0 = keyP
  have hkPlen : keyP.length = B := by
    rw [← hkP]
    simp
    omega
  have hkPbytes : ∀ b ∈ keyP, b < 256 := by
    rw [← hkP]
    intro b hb
    rw [List.mem_append] at hb
    rcases hb with h | h
    · exact hk1bytes b h
    · have := List.eq_of_mem_replicate h
      omega
  have hipad : (List.range B).map (fun i => ((keyP.getD i 0) ^^^ 54) % 256) =
      keyP.map (fun b => b ^^^ 54) := by
    rw [← hkPlen, range_map_getD keyP (fun b => (b ^^^ 54) % 256)]
    exact List.map_congr_left (fun b hb => xor_mask b 54 (hkPbytes b hb) (by norm_num))
  have hopad : (List.range B).map (fun i => ((keyP.getD i 0) ^^^ 92) % 256) =
      keyP.map (fun b => b ^^^ 92) := by
    rw [← hkPlen, range_map_getD keyP (fun b => (b ^^^ 92) % 256)]
    exact List.map_congr_left (fun b hb => xor_mask b 92 (hkPbytes b hb) (by norm_num))
  rw [hipad, hopad, map_mod_id msg hmsg,
    map_mod_id _ (hHbytes ((keyP.map (fun b => b ^^^ 54)) ++ msg))]

/-- C1 (amended): for every algorithm the hash layer actually resolves
(SHA1, SHA256, SHA512 case-insensitively), every byte-valued key and
message, `hmacDigest` uses a block size of 128 bytes exactly for
SHA-512 and 64 bytes otherwise, replaces a key longer than the block
size by its hash, zero-pads the key to the block size, and returns
`hash(pad(key, 0x5c) ++ hash(pad(key, 0x36) ++ message))`. -/
theorem hmacDigest_eq_spec (eng : Engine) (alg : Str) (key msg : List Nat)
    (H : List Nat → List Nat) (B : Nat)
    (hH : getHashFunction eng alg = .ok H)
    (hB : B = blockSizeOf alg)
    (hkey : ∀ b ∈ key, b < 256)
    (hHbytes : ∀ l, ∀ b ∈ H l, b < 256)
    (hHlen : ∀ l, (H l).length ≤ B)
    (hmsg : ∀ b ∈ msg, b < 256) :
    hmacDigest eng alg key msg = .ok (hmacSpec H B key msg) := by
  rw [hmacDigest_ok eng alg key msg H hH, ← hB]
  exact congrArg Except.ok
    (hmacBody_eq_spec H B key msg hkey hHbytes hHlen hmsg)

/-- C1 (counterexample): SHA3-384 is accepted by canonicalization, yet
`hmacDigest` rejects it instead of running the HMAC composition with a
128-byte block. -/
theorem hmacDigest_sha3_counterexample :
    canonicalizeAlgorithm "SHA3-384".toList = .ok "SHA3-384".toList ∧
    hmacDigest trivEngine "SHA3-384".toList [] [] =
      .error ("unsupported algorithm: ".toList ++ "SHA3-384".toList) := by
  constructor
  · decide
  · rfl

/-- Witness for the amended C1 at SHA1 with a short key. -/
theorem hmacDigest_eq_spec_witness :
    (getHashFunction trivEngine "SHA1".toList = .ok trivEngine.sha1 ∧
      (64 : Nat) = blockSizeOf "SHA1".toList) ∧
    hmacDigest trivEngine "SHA1".toList [1, 2] [3] =
      .ok (hmacSpec trivEngine.sha1 64 [1, 2] [3]) :=
  ⟨⟨rfl, by decide⟩,
    hmacDigest_eq_spec trivEngine "SHA1".toList [1, 2] [3] trivEngine.sha1 64 rfl (by decide)
      (by decide)
      (fun l b hb => by
        have := List.eq_of_mem_replicate hb
        omega)
      (fun l => by simp [trivEngine])
      (by decide)⟩

/-- A resolved hash function turns `hotpGenerate` into its pure token. -/
theorem hotpGenerate_ok (eng : Engine) (secret : List Nat) (alg : Str) (digits : Nat)
    (counter : Int) (H : List Nat → List Nat) (hH : getHashFunction eng alg = .ok H) :
    hotpGenerate eng secret alg digits counter =
      .ok (hotpTokenPure H (blockSizeOf alg) secret digits counter) := by
  unfold hotpGenerate
  rw [hmacDigest_ok eng alg secret (uintDecode counter) H hH]
  rfl

/-- A bitwise or of naturals vanishes only if both sides do. -/
theorem nat_or_eq_zero_iff (x y : Nat) : x ||| y = 0 ↔ x = 0 ∧ y = 0 := by
  constructor
  · intro h
    constructor
    · apply Nat.eq_of_testBit_eq
      intro i
      have := congrArg (fun z => z.testBit i) h
      simp only [Nat.testBit_or, Nat.zero_testBit] at this
      simp [Bool.or_eq_false_iff.mp this]
    · apply Nat.eq_of_testBit_eq
      intro i
      have := congrArg (fun z => z.testBit i) h
      simp only [Nat.testBit_or, Nat.zero_testBit] at this
      simp [Bool.or_eq_false_iff.mp this]
  · rintro ⟨rfl, rfl⟩
    simp

/-- The or-of-xors accumulator of `timingSafeEqual` vanishes exactly
when it started at zero and the zipped strings agree. -/
theorem tse_fold : ∀ (a b : Str), a.length = b.length → ∀ o0 : Nat,
    ((a.zip b).foldl (fun o p => o ||| (p.1.toNat ^^^ p.2.toNat)) o0 = 0) ↔
      (o0 = 0 ∧ a = b) := by
  intro a
  induction a with
  | nil =>
      intro b h o0
      cases b with
      | nil => simp
      | cons d bs => simp at h
  | cons c as ih =>
      intro b h o0
      cases b with
      | nil => simp at h
      | cons d bs =>
          have hlen : as.length = bs.length := by simpa using h
          show (((as.zip bs)).foldl _ (o0 ||| (c.toNat ^^^ d.toNat)) = 0) ↔ _
          rw [ih bs hlen (o0 ||| (c.toNat ^^^ d.toNat)), nat_or_eq_zero_iff]
          constructor
          · rintro ⟨⟨h0, hx⟩, hrest⟩
            refine ⟨h0, ?_⟩
            have hcd : c = d := Char.ext (UInt32.ext (Nat.xor_eq_zero.mp hx))
            rw [hcd, hrest]
          · rintro ⟨h0, hab⟩
            injection hab with h1 h2
            exact ⟨⟨h0, Nat.xor_eq_zero.mpr (by rw [h1])⟩, h2⟩

/-- On equal-length strings `timingSafeEqual` returns equality. -/
theorem timingSafeEqual_ok (a b : Str) (h : a.length = b.length) :
    timingSafeEqual a b = .ok (decide (a = b)) := by
  unfold timingSafeEqual
  rw [if_neg (by omega)]
  congr 1
  have hiff := tse_fold a b h 0
  by_cases hab : a = b
  · have h0 : (a.zip b).foldl (fun o p => o ||| (p.1.toNat ^^^ p.2.toNat)) 0 = 0 :=
      hiff.mpr ⟨rfl, hab⟩
    rw [h0]
    simp [hab]
  · have h0 : (a.zip b).foldl (fun o p => o ||| (p.1.toNat ^^^ p.2.toNat)) 0 ≠ 0 :=
      fun hc => hab (hiff.mp hc).2
    have h1 : ((a.zip b).foldl (fun o p => o ||| (p.1.toNat ^^^ p.2.toNat)) 0 == 0) = false := by
      rw [beq_eq_false_iff_ne]
      exact h0
    rw [h1, decide_eq_false hab]

/-- Big-endian bytes of zero are all zero. -/
theorem beBytes_zero (n : Nat) : beBytes n 0 = List.replicate n 0 := by
  unfold beBytes
  rw [show (fun i => 0 / 256 ^ (n - 1 - i) % 256) = fun i => (0 : Nat) from by
    funext i
    simp]
  show List.map (Function.const Nat 0) (List.range n) = List.replicate n 0
  rw [List.map_const]
  simp

/-- Peeling the least significant byte off a big-endian encoding. -/
theorem beBytes_succ (n a : Nat) : beBytes (n + 1) a = beBytes n (a / 256) ++ [a % 256] := by
  unfold beBytes
  rw [List.range_succ, List.map_append]
  congr 1
  · apply List.map_congr_left
    intro i hi
    rw [List.mem_range] at hi
    rw [show n + 1 - 1 - i = (n - 1 - i) + 1 from by omega, pow_succ,
      mul_comm, ← Nat.div_div_eq_div_mul]
  · simp

/-- The filling loop of `uintDecode` produces exactly the big-endian
byte encoding on nonnegative accumulators. -/
theorem uintDecodeAux_be : ∀ (n : Nat) (acc : Int), 0 ≤ acc →
    uintDecodeAux n acc = beBytes n acc.toNat := by
  intro n
  induction n with
  | zero => intro acc _; rfl
  | succ n ih =>
      intro acc h
      unfold uintDecodeAux
      by_cases h0 : acc = 0
      · rw [if_pos h0, h0]
        show List.replicate (n + 1) 0 = beBytes (n + 1) (Int.toNat 0)
        rw [show Int.toNat 0 = 0 from rfl, beBytes_zero]
      · rw [if_neg h0]
        have h2 : (0 : Int) ≤ (acc - acc % 256) / 256 := by omega
        rw [ih _ h2, beBytes_succ]
        congr 2
        · omega
        · omega

/-- C2 helper: `uintDecode` is the fixed 8-byte big-endian encoding on
nonnegative counters. -/
theorem uintDecode_be (c : Int) (h0 : 0 ≤ c) : uintDecode c = beBytes 8 c.toNat :=
  uintDecodeAux_be 8 c h0

/-- The counter encoding always spans exactly 8 bytes. -/
theorem uintDecode_length (c : Int) : (uintDecode c).length = 8 := by
  unfold uintDecode
  have : ∀ (n : Nat) (acc : Int), (uintDecodeAux n acc).length = n := by
    intro n
    induction n with
    | zero => intro acc; rfl
    | succ n ih =>
        intro acc
        unfold uintDecodeAux
        by_cases h0 : acc = 0
        · rw [if_pos h0]; simp
        · rw [if_neg h0]; simp [ih]
  exact this 8 c

/-- The token of `HOTP.generate` has exactly `digits` characters. -/
theorem hotpTokenPure_length (H : List Nat → List Nat) (B : Nat) (secret : List Nat)
    (digits : Nat) (counter : Int) (hd : 1 ≤ digits) :
    (hotpTokenPure H B secret digits counter).length = digits := by
  unfold hotpTokenPure
  apply padStart_length
  apply natToChars_length_le _ _ hd
  exact Nat.mod_lt _ (by positivity)

/-- The token of `HOTP.generate` consists of decimal digits only. -/
theorem hotpTokenPure_digits (H : List Nat → List Nat) (B : Nat) (secret : List Nat)
    (digits : Nat) (counter : Int) :
    ∀ ch ∈ hotpTokenPure H B secret digits counter, ch.isDigit = true := by
  intro ch hch
  unfold hotpTokenPure padStart at hch
  rw [List.mem_append] at hch
  rcases hch with h | h
  · rw [List.eq_of_mem_replicate h]
    decide
  · exact natToChars_all_digit _ ch h

/-- C2: for digits in 6..8 and any uint64 counter, static
`HOTP.generate` encodes the counter as exactly 8 big-endian bytes,
builds the masked 31-bit dynamic value at the offset given by the low
four bits of the last digest byte, reduces it modulo `10 ^ digits`,
and renders it left-zero-padded to exactly `digits` decimal
characters. -/
theorem hotpGenerate_c2 (eng : Engine) (secret : List Nat) (alg : Str) (digits : Nat)
    (counter : Int) (H : List Nat → List Nat)
    (hH : getHashFunction eng alg = .ok H)
    (hdig : digits = 6 ∨ digits = 7 ∨ digits = 8)
    (hc0 : 0 ≤ counter) :
    uintDecode counter = beBytes 8 counter.toNat ∧
    (uintDecode counter).length = 8 ∧
    hotpGenerate eng secret alg digits counter =
      .ok (padStart
        (natToChars (dynValue (hmacBody H (blockSizeOf alg) secret (uintDecode counter))
          % 10 ^ digits))
        digits (digitChar 0)) ∧
    (hotpTokenPure H (blockSizeOf alg) secret digits counter).length = digits ∧
    ∀ ch ∈ hotpTokenPure H (blockSizeOf alg) secret digits counter, ch.isDigit = true := by
  have hd1 : 1 ≤ digits := by omega
  exact ⟨uintDecode_be counter hc0, uintDecode_length counter,
    hotpGenerate_ok eng secret alg digits counter H hH,
    hotpTokenPure_length H (blockSizeOf alg) secret digits counter hd1,
    hotpTokenPure_digits H (blockSizeOf alg) secret digits counter⟩

/-- Witness for C2 at SHA1, 6 digits, counter 5. -/
theorem hotpGenerate_c2_witness :
    (getHashFunction trivEngine "SHA1".toList = .ok trivEngine.sha1 ∧
      ((6 : Nat) = 6 ∨ (6 : Nat) = 7 ∨ (6 : Nat) = 8) ∧ (0 : Int) ≤ 5) ∧
    (uintDecode 5 = beBytes 8 (Int.toNat 5) ∧
      (uintDecode 5).length = 8 ∧
      hotpGenerate trivEngine [1, 2, 3] "SHA1".toList 6 5 =
        .ok (padStart
          (natToChars (dynValue (hmacBody trivEngine.sha1 (blockSizeOf "SHA1".toList)
            [1, 2, 3] (uintDecode 5)) % 10 ^ 6))
          6 (digitChar 0)) ∧
      (hotpTokenPure trivEngine.sha1 (blockSizeOf "SHA1".toList) [1, 2, 3] 6 5).length = 6 ∧
      ∀ ch ∈ hotpTokenPure trivEngine.sha1 (blockSizeOf "SHA1".toList) [1, 2, 3] 6 5,
        ch.isDigit = true) :=
  ⟨⟨rfl, by decide, by decide⟩,
    hotpGenerate_c2 trivEngine [1, 2, 3] "SHA1".toList 6 5 trivEngine.sha1 rfl
      (by decide) (by decide)⟩

/-- With a resolved hash function and a token of the right length, the
scanning loop is the pure fold recording the delta of each match. -/
theorem hotpScan_pure (eng : Engine) (token : Str) (secret : List Nat) (alg : Str)
    (digits : Nat) (counter : Int) (H : List Nat → List Nat)
    (hH : getHashFunction eng alg = .ok H) (hd : 1 ≤ digits) (htl : token.length = digits) :
    ∀ (l : List Int) (delta : Option Int),
    hotpScan eng token secret alg digits counter l delta =
      .ok (l.foldl (fun d i =>
        if token = hotpTokenPure H (blockSizeOf alg) secret digits i
        then some (i - counter) else d) delta) := by
  intro l
  induction l with
  | nil => intro delta; rfl
  | cons i rest ih =>
      intro delta
      show (match hotpGenerate eng secret alg digits i with
        | Except.error e => Except.error e
        | Except.ok generatedToken =>
            match timingSafeEqual token generatedToken with
            | Except.error e => Except.error e
            | Except.ok eq =>
                hotpScan eng token secret alg digits counter rest
                  (if eq then some (i - counter) else delta)) = _
      rw [hotpGenerate_ok eng secret alg digits i H hH]
      have hlen : token.length = (hotpTokenPure H (blockSizeOf alg) secret digits i).length := by
        rw [hotpTokenPure_length H (blockSizeOf alg) secret digits i hd, htl]
      show (match timingSafeEqual token (hotpTokenPure H (blockSizeOf alg) secret digits i) with
        | Except.error e => Except.error e
        | Except.ok eq =>
            hotpScan eng token secret alg digits counter rest
              (if eq then some (i - counter) else delta)) = _
      rw [timingSafeEqual_ok token _ hlen]
      show hotpScan eng token secret alg digits counter rest
          (if decide (token = hotpTokenPure H (blockSizeOf alg) secret digits i) = true
            then some (i - counter) else delta) = _
      rw [ih]
      simp only [decide_eq_true_eq, List.foldl_cons]

/-- The match-recording fold returns the delta of the last matching
element, keeping its start value when nothing matches. -/
theorem foldl_last_match (p : Int → Prop) [DecidablePred p] (c : Int) :
    ∀ (l : List Int) (d0 : Option Int),
      l.foldl (fun d i => if p i then some (i - c) else d) d0 =
        (match (l.filter (fun i => decide (p i))).getLast? with
          | some j => some (j - c)
          | none => d0) := by
  intro l
  induction l with
  | nil => intro d0; rfl
  | cons a t ih =>
      intro d0
      by_cases hpa : p a
      · rw [List.foldl_cons, if_pos hpa, ih, List.filter_cons_of_pos (by simpa using hpa)]
        cases hft : (t.filter fun i => decide (p i)) with
        | nil => rfl
        | cons b l2 =>
            rw [List.getLast?_cons_cons]
            cases h2 : (b :: l2).getLast? with
            | none => simp at h2
            | some j => rfl
      · rw [List.foldl_cons, if_neg hpa, ih, List.filter_cons_of_neg (by simpa using hpa)]

/-- The match-recording fold either keeps its start value or returns
the delta of some matching element of the list. -/
theorem foldl_match_cases (p : Int → Prop) [DecidablePred p] (c : Int) :
    ∀ (l : List Int) (d0 : Option Int),
      l.foldl (fun d i => if p i then some (i - c) else d) d0 = d0 ∨
      ∃ j ∈ l, p j ∧
        l.foldl (fun d i => if p i then some (i - c) else d) d0 = some (j - c) := by
  intro l
  induction l with
  | nil => intro d0; left; rfl
  | cons a t ih =>
      intro d0
      rw [List.foldl_cons]
      by_cases hpa : p a
      · rw [if_pos hpa]
        rcases ih (some (a - c)) with h | ⟨j, hj, hpj, h⟩
        · right; exact ⟨a, by simp, hpa, h⟩
        · right; exact ⟨j, by simp [hj], hpj, h⟩
      · rw [if_neg hpa]
        rcases ih d0 with h | ⟨j, hj, hpj, h⟩
        · left; exact h
        · right; exact ⟨j, by simp [hj], hpj, h⟩

/-- The match-recording fold is inert on a list without matches. -/
theorem foldl_no_match (p : Int → Prop) [DecidablePred p] (c : Int) :
    ∀ (l : List Int) (d0 : Option Int), (∀ j ∈ l, ¬ p j) →
      l.foldl (fun d i => if p i then some (i - c) else d) d0 = d0 := by
  intro l
  induction l with
  | nil => intro d0 _; rfl
  | cons a t ih =>
      intro d0 h
      rw [List.foldl_cons, if_neg (h a (by simp))]
      exact ih d0 (fun j hj => h j (by simp [hj]))

/-- For a nonnegative window the scanned range splits into the
counters strictly below, the reference counter, and the counters
strictly above. -/
theorem scanRange_split (c w : Int) (hw : 0 ≤ w) :
    scanRange c w = (List.range w.toNat).map (fun (k : Nat) => c - w + (k : Int)) ++ c ::
      (List.range w.toNat).map (fun (k : Nat) => c + 1 + (k : Int)) := by
  unfold scanRange
  rw [show (2 * w + 1).toNat = w.toNat + (w.toNat + 1) from by omega, List.range_add,
    List.map_append, List.map_map]
  congr 1
  rw [List.range_succ_eq_map, List.map_cons, List.map_map]
  congr 1
  · show c - w + ((w.toNat + 0 : Nat) : Int) = c
    push_cast
    omega
  · apply List.map_congr_left
    intro k _
    show c - w + ((w.toNat + (k + 1) : Nat) : Int) = c + 1 + (k : Int)
    push_cast
    omega

/-- Membership in the scanned range is exactly the window interval. -/
theorem scanRange_mem (c w j : Int) (hw : 0 ≤ w) :
    j ∈ scanRange c w ↔ c - w ≤ j ∧ j ≤ c + w := by
  unfold scanRange
  rw [List.mem_map]
  constructor
  · rintro ⟨k, hk, rfl⟩
    rw [List.mem_range] at hk
    omega
  · rintro ⟨h1, h2⟩
    refine ⟨(j - (c - w)).toNat, ?_, ?_⟩
    · rw [List.mem_range]; omega
    · omega

/-- C3 (amended): for a hash-layer-supported algorithm and at least
one digit, static `HOTP.validate` returns `none` immediately when the
token length differs from `digits`, and otherwise scans the window
range in ascending order and returns the delta of the last matching
counter, or `none` when no counter matches. -/
theorem hotpValidate_c3_amended (eng : Engine) (token : Str) (secret : List Nat) (alg : Str)
    (digits : Nat) (counter window : Int) (H : List Nat → List Nat)
    (hH : getHashFunction eng alg = .ok H) (hd : 1 ≤ digits) :
    hotpValidate eng token secret alg digits counter window =
      if token.length ≠ digits then .ok none
      else .ok (match ((scanRange counter window).filter
            (fun i => decide (token = hotpTokenPure H (blockSizeOf alg) secret digits i))).getLast?
          with
        | some j => some (j - counter)
        | none => none) := by
  unfold hotpValidate
  by_cases hlen : token.length ≠ digits
  · rw [if_pos hlen, if_pos hlen]
  · rw [if_neg hlen, if_neg hlen]
    push_neg at hlen
    rw [hotpScan_pure eng token secret alg digits counter H hH hd hlen
      (scanRange counter window) none]
    rw [foldl_last_match]

/-- C3 (counterexample): SHA3-256 passes canonicalization and is a
valid algorithm of the data model, yet `HOTP.validate` on a token of
the right length throws instead of returning a scan verdict. -/
theorem hotpValidate_c3_counterexample :
    canonicalizeAlgorithm "SHA3-256".toList = .ok "SHA3-256".toList ∧
    hotpValidate trivEngine "000000".toList [0] "SHA3-256".toList 6 0 0 =
      .error ("unsupported algorithm: ".toList ++ "SHA3-256".toList) := by
  constructor
  · decide
  · decide

/-- Witness for the amended C3 at SHA1, right-length token. -/
theorem hotpValidate_c3_witness :
    (getHashFunction trivEngine "SHA1".toList = .ok trivEngine.sha1 ∧ (1 : Nat) ≤ 6) ∧
    hotpValidate trivEngine "123456".toList [0] "SHA1".toList 6 0 1 =
      (if ("123456".toList : Str).length ≠ 6 then .ok none
        else .ok (match ((scanRange 0 1).filter
              (fun i => decide ("123456".toList =
                hotpTokenPure trivEngine.sha1 (blockSizeOf "SHA1".toList) [0] 6 i))).getLast?
            with
          | some j => some (j - 0)
          | none => none)) :=
  ⟨⟨rfl, by decide⟩,
    hotpValidate_c3_amended trivEngine "123456".toList [0] "SHA1".toList 6 0 1
      trivEngine.sha1 rfl (by decide)⟩

/-- C4 (amended): validating a freshly generated token against its own
counter with a nonnegative window always succeeds with a delta between
0 and the window; the delta is 0 whenever no strictly later counter in
the window yields the same token, but a later collision wins because
the scan records the last match. -/
theorem hotpValidate_c4_amended (eng : Engine) (secret : List Nat) (alg : Str)
    (digits : Nat) (counter window : Int) (H : List Nat → List Nat) (tok : Str)
    (hH : getHashFunction eng alg = .ok H) (hd : 1 ≤ digits) (hw : 0 ≤ window)
    (htok : hotpGenerate eng secret alg digits counter = .ok tok) :
    ∃ d : Int, hotpValidate eng tok secret alg digits counter window = .ok (some d) ∧
      0 ≤ d ∧ d ≤ window ∧
      ((∀ j : Int, counter < j → j ≤ counter + window →
          hotpTokenPure H (blockSizeOf alg) secret digits j ≠ tok) → d = 0) := by
  have htok2 : tok = hotpTokenPure H (blockSizeOf alg) secret digits counter := by
    rw [hotpGenerate_ok eng secret alg digits counter H hH] at htok
    exact (Except.ok.inj htok).symm
  have hlen : tok.length = digits := by
    rw [htok2]
    exact hotpTokenPure_length H (blockSizeOf alg) secret digits counter hd
  unfold hotpValidate
  rw [if_neg (by omega)]
  rw [hotpScan_pure eng tok secret alg digits counter H hH hd hlen
    (scanRange counter window) none]
  rw [scanRange_split counter window hw, List.foldl_append, List.foldl_cons]
  rw [if_pos (by rw [← htok2])]
  rw [sub_self]
  rcases foldl_match_cases
      (fun i => tok = hotpTokenPure H (blockSizeOf alg) secret digits i) counter
      ((List.range window.toNat).map (fun (k : Nat) => counter + 1 + (k : Int)))
      (some 0) with h | ⟨j, hj, hpj, h⟩
  · exact ⟨0, by rw [h], le_refl 0, hw, fun _ => rfl⟩
  · rw [List.mem_map] at hj
    obtain ⟨k, hk, rfl⟩ := hj
    rw [List.mem_range] at hk
    refine ⟨counter + 1 + (k : Int) - counter, by rw [h], by omega, by omega, ?_⟩
    intro hu
    exact absurd hpj.symm (hu (counter + 1 + (k : Int)) (by omega) (by omega))

/-- C4 (counterexample): with colliding digests the token generated at
counter 0 validates at counter 0 with window 1 to `Some 1`, not
`Some 0`: the scan keeps the last matching counter. -/
theorem hotpValidate_c4_counterexample :
    hotpGenerate trivEngine [1, 2, 3] "SHA1".toList 6 0 = .ok "000000".toList ∧
    hotpValidate trivEngine "000000".toList [1, 2, 3] "SHA1".toList 6 0 1 = .ok (some 1) := by
  constructor
  · decide
  · decide

/-- Witness for the amended C4 at window 0. -/
theorem hotpValidate_c4_witness :
    (getHashFunction trivEngine "SHA1".toList = .ok trivEngine.sha1 ∧ (1 : Nat) ≤ 6 ∧
      (0 : Int) ≤ 0 ∧
      hotpGenerate trivEngine [1, 2, 3] "SHA1".toList 6 0 = .ok "000000".toList) ∧
    (∃ d : Int, hotpValidate trivEngine "000000".toList [1, 2, 3] "SHA1".toList 6 0 0 =
        .ok (some d) ∧ 0 ≤ d ∧ d ≤ 0 ∧
      ((∀ j : Int, 0 < j → j ≤ 0 + 0 →
          hotpTokenPure trivEngine.sha1 (blockSizeOf "SHA1".toList) [1, 2, 3] 6 j ≠
            "000000".toList) → d = 0)) :=
  ⟨⟨rfl, by decide, by decide, by decide⟩,
    hotpValidate_c4_amended trivEngine [1, 2, 3] "SHA1".toList 6 0 0 trivEngine.sha1
      "000000".toList rfl (by decide) (by decide) (by decide)⟩

/-- C9: the TOTP counter is the exact integer floor of
`timestamp_ms / 1000 / period`, and TOTP generation is exactly HOTP
generation at that counter. -/
theorem totp_c9 (eng : Engine) (secret : List Nat) (alg : Str) (digits period : Nat)
    (timestamp : Int) (hp : 1 ≤ period) :
    totpCounter period timestamp = timestamp / (1000 * (period : Int)) ∧
    totpGenerate eng secret alg digits period timestamp =
      hotpGenerate eng secret alg digits (timestamp / (1000 * (period : Int))) := by
  have hc : totpCounter period timestamp = timestamp / (1000 * (period : Int)) := by
    unfold totpCounter
    rw [show ((timestamp : ℚ) / 1000 / (period : ℚ)).floor =
      ⌊(timestamp : ℚ) / 1000 / (period : ℚ)⌋ from by rw [Rat.floor_def, Rat.floor_def']]
    rw [div_div]
    rw [show ((1000 : ℚ) * (period : ℚ)) = ((1000 * period : Nat) : ℚ) from by push_cast; ring]
    rw [Rat.floor_intCast_div_natCast]
    push_cast
    ring_nf
  exact ⟨hc, by unfold totpGenerate; rw [hc]⟩

/-- Witness for C9 at period 30, timestamp 59000 ms. -/
theorem totp_c9_witness :
    ((1 : Nat) ≤ 30) ∧
    (totpCounter 30 59000 = 59000 / (1000 * (30 : Int)) ∧
      totpGenerate trivEngine [1] "SHA1".toList 6 30 59000 =
        hotpGenerate trivEngine [1] "SHA1".toList 6 (59000 / (1000 * (30 : Int)))) :=
  ⟨by decide, totp_c9 trivEngine [1] "SHA1".toList 6 30 59000 (by decide)⟩

/-- A successful canonicalization lands in the enumerated tag set. -/
theorem canonicalizeAlgorithm_mem (s a : Str) (h : canonicalizeAlgorithm s = .ok a) :
    a ∈ canonicalAlgorithms := by
  unfold canonicalizeAlgorithm at h
  dsimp only at h
  split_ifs at h with h1 h2 h3 h4 h5 h6 h7 <;> cases h <;>
    first
      | (rcases h2 with h2 | h2 | h2 | h2 <;> rw [h2] <;> decide)
      | decide

/-- C7 (amended): every `TOTP` constructed successfully carries an
algorithm from the enumerated tag set (anything else is rejected by
canonicalization), while the `HOTP` constructor merely uppercases the
requested algorithm and accepts any string. -/
theorem constructors_c7_amended (o : TOTPOptions) (t : TOTP) (h : totpNew o = .ok t) :
    t.algorithm ∈ canonicalAlgorithms ∧
    (∀ (o2 : HOTPOptions) (h2 : HOTP), hotpNew o2 = .ok h2 →
      h2.algorithm = toUpperStr (o2.algorithm.getD "SHA1".toList)) := by
  constructor
  · unfold totpNew at h
    cases hres : resolveSecret o.secret with
    | error e => rw [hres] at h; cases h
    | ok bytes =>
        rw [hres] at h
        cases halg : canonicalizeAlgorithm (o.algorithm.getD "SHA1".toList) with
        | error e => rw [halg] at h; cases h
        | ok alg =>
            rw [halg] at h
            have h2 : (Except.ok {
              issuer := o.issuer.getD [],
              label := o.label.getD "OTPAuth".toList,
              issuerInLabel := o.issuerInLabel.getD true,
              secret := bytes,
              algorithm := alg,
              digits := o.digits.getD 6,
              period := o.period.getD 30 } : Except Str TOTP) = .ok t := h
            cases h2
            exact canonicalizeAlgorithm_mem _ _ halg
  · intro o2 h2 hok
    unfold hotpNew at hok
    cases hres : resolveSecret o2.secret with
    | error e => rw [hres] at hok; cases hok
    | ok bytes =>
        rw [hres] at hok
        have h3 : (Except.ok {
          issuer := o2.issuer.getD [],
          label := o2.label.getD "OTPAuth".toList,
          issuerInLabel := o2.issuerInLabel.getD true,
          secret := bytes,
          algorithm := toUpperStr (o2.algorithm.getD "SHA1".toList),
          digits := o2.digits.getD 6,
          counter := o2.counter.getD 0 } : Except Str HOTP) = .ok h2 := hok
        cases h3
        rfl

/-- C7 (counterexample): the `HOTP` constructor accepts the algorithm
MD5, which is outside the enumerated set, instead of rejecting it. -/
theorem constructors_c7_counterexample :
    hotpNew c7HotpOptions = .ok c7HotpResult ∧
    c7HotpResult.algorithm = "MD5".toList ∧
    "MD5".toList ∉ canonicalAlgorithms := by
  refine ⟨rfl, rfl, ?_⟩
  decide

/-- Witness for the amended C7 at a SHA3-256 TOTP construction. -/
theorem constructors_c7_witness :
    totpNew c7TotpOptions = .ok c7TotpResult ∧
    (c7TotpResult.algorithm ∈ canonicalAlgorithms ∧
      (∀ (o2 : HOTPOptions) (h2 : HOTP), hotpNew o2 = .ok h2 →
        h2.algorithm = toUpperStr (o2.algorithm.getD "SHA1".toList))) :=
  ⟨by decide, constructors_c7_amended c7TotpOptions c7TotpResult (by decide)⟩

/-- C10: the no-argument instance-bound `generate` post-increments the
bound counter and changes nothing else, computing its token from the
pre-increment counter; an explicit counter argument leaves the state
untouched; the instance-bound `validate` never mutates the state and
defaults its counter argument to the current bound counter. -/
theorem hotp_instance_c10 (eng : Engine) (h : HOTP) (token : Str)
    (counterArg window : Option Int) (c : Int) :
    (hotpGenerateInstance eng h none).2 = { h with counter := h.counter + 1 } ∧
    (hotpGenerateInstance eng h none).1 =
      hotpGenerate eng h.secret h.algorithm h.digits h.counter ∧
    (hotpGenerateInstance eng h (some c)).2 = h ∧
    (hotpValidateInstance eng h token counterArg window).2 = h ∧
    (hotpValidateInstance eng h token none window).1 =
      hotpValidate eng token h.secret h.algorithm h.digits h.counter (window.getD 1) :=
  ⟨rfl, rfl, rfl, rfl, rfl⟩

/-- A successful post-counter parse stores the parsed counter value in
the returned instance. -/
theorem hotpFinish_counter (ps : List (Str × Str)) (L : Str) (cv : Int) (hh : HOTP)
    (h : hotpFinish ps L cv = .ok (.inl hh)) : hh.counter = cv := by
  unfold hotpFinish at h
  cases hpc : parseCommon ps L with
  | error e => rw [hpc] at h; cases h
  | ok tup =>
      obtain ⟨i1, l1, iil1, sb, a1, d1⟩ := tup
      rw [hpc] at h
      have h3 : (Except.ok (Sum.inl (HOTP.mk (i1.getD []) l1 (iil1.getD true) sb
          (toUpperStr (a1.getD "SHA1".toList)) (d1.getD 6) cv)) : Except Str (HOTP ⊕ TOTP)) =
          .ok (.inl hh) := h
      cases h3
      rfl

/-- C8 (amended): on any URI whose overall shape matches with type
hotp and whose parameters percent-decode successfully, a missing or
non-integer counter parameter fails with the counter error before any
configuration is built, while an optionally signed integer counter is
accepted: parsing proceeds into the common tail with exactly that
parsed value, and any successfully returned configuration carries it. -/
theorem uriParse_c8_amended (s T L P : Str) (ps : List (Str × Str))
    (hm : uriMatch s = some (T, L, P))
    (hT : toLowerStr T = "hotp".toList)
    (hps : mapPieces (splitSep '&' P) = .ok ps) :
    ((lookupParam ps "counter".toList = none ∨
        (∃ v, lookupParam ps "counter".toList = some v ∧ integerTest v = false)) →
      uriParse s = .error "missing or invalid parameter: counter".toList) ∧
    (∀ v, lookupParam ps "counter".toList = some v → integerTest v = true →
      uriParse s = hotpFinish ps L (parseIntJS v) ∧
      (∀ hh : HOTP, uriParse s = .ok (.inl hh) → hh.counter = parseIntJS v)) := by
  have hu : uriParse s = (match lookupParam ps "counter".toList with
      | some v =>
          if integerTest v then hotpFinish ps L (parseIntJS v)
          else .error "missing or invalid parameter: counter".toList
      | none => .error "missing or invalid parameter: counter".toList) := by
    unfold uriParse
    rw [hm]
    dsimp only
    rw [hps]
    dsimp only
    rw [if_pos hT]
  constructor
  · intro hbad
    rcases hbad with hnone | ⟨v, hv, hfalse⟩
    · rw [hu, hnone]
    · rw [hu, hv]
      dsimp only
      rw [if_neg (by rw [hfalse]; exact Bool.false_ne_true)]
  · intro v hv htrue
    have hgood : uriParse s = hotpFinish ps L (parseIntJS v) := by
      rw [hu, hv]
      dsimp only
      rw [if_pos htrue]
    refine ⟨hgood, fun hh hok => ?_⟩
    rw [hgood] at hok
    exact hotpFinish_counter ps L (parseIntJS v) hh hok

/-- C8 (counterexample): a hotp URI with no counter parameter but a
malformed percent-escape fails with the URI-malformed error raised
during parameter decoding, not with the counter error the claim
promises for every hotp URI lacking a counter. -/
theorem uriParse_c8_counterexample :
    uriMatch "otpauth://hotp/A?x=%".toList =
      some ("hotp".toList, "A".toList, "x=%".toList) ∧
    uriParse "otpauth://hotp/A?x=%".toList = .error "URI malformed".toList ∧
    ("URI malformed".toList : Str) ≠ "missing or invalid parameter: counter".toList := by
  refine ⟨by decide, by decide, by decide⟩

/-- Witness for the amended C8 on a well-formed hotp URI. -/
theorem uriParse_c8_witness :
    (uriMatch "otpauth://hotp/A?secret=AA&counter=7".toList =
        some ("hotp".toList, "A".toList, "secret=AA&counter=7".toList) ∧
      toLowerStr "hotp".toList = "hotp".toList ∧
      mapPieces (splitSep '&' "secret=AA&counter=7".toList) =
        .ok [("secret".toList, "AA".toList), ("counter".toList, "7".toList)]) ∧
    (((lookupParam [("secret".toList, "AA".toList), ("counter".toList, "7".toList)]
          "counter".toList = none ∨
        (∃ v, lookupParam [("secret".toList, "AA".toList), ("counter".toList, "7".toList)]
            "counter".toList = some v ∧ integerTest v = false)) →
      uriParse "otpauth://hotp/A?secret=AA&counter=7".toList =
        .error "missing or invalid parameter: counter".toList) ∧
    (∀ v, lookupParam [("secret".toList, "AA".toList), ("counter".toList, "7".toList)]
          "counter".toList = some v → integerTest v = true →
      uriParse "otpauth://hotp/A?secret=AA&counter=7".toList =
        hotpFinish [("secret".toList, "AA".toList), ("counter".toList, "7".toList)]
          "A".toList (parseIntJS v) ∧
      (∀ hh : HOTP, uriParse "otpauth://hotp/A?secret=AA&counter=7".toList =
          .ok (.inl hh) → hh.counter = parseIntJS v))) :=
  ⟨⟨by decide, by decide, by decide⟩,
    uriParse_c8_amended "otpauth://hotp/A?secret=AA&counter=7".toList "hotp".toList
      "A".toList "secret=AA&counter=7".toList
      [("secret".toList, "AA".toList), ("counter".toList, "7".toList)]
      (by decide) (by decide) (by decide)⟩

/-- C6 (counterexample): a constructed configuration whose label
contains a colon does not survive the URI round trip; the decoded
label is split at the colon, so the reparsed configuration has a
different label and issuer. -/
theorem uri_roundtrip_c6_counterexample :
    totpNew c6Options = .ok c6Built ∧
    uriParse (totpToString c6Built) = .ok (.inr c6Reparsed) ∧
    c6Reparsed.label ≠ c6Built.label ∧ c6Reparsed.issuer ≠ c6Built.issuer := by
  refine ⟨by decide, by decide, by decide, by decide⟩

/-- Safe characters are unreserved for `encodeURIComponent`. -/
theorem safe_unreserved (c : Char) (h : safeChar c = true) : isUnreservedE c = true := by
  unfold safeChar at h
  unfold isUnreservedE
  simp only [Bool.or_eq_true] at h ⊢
  tauto

/-- Safe characters are unescaped by the urlencoded serializer. -/
theorem safe_urlencoded (c : Char) (h : safeChar c = true) : isUrlencodedSafe c = true := by
  unfold safeChar at h
  unfold isUrlencodedSafe
  simp only [Bool.or_eq_true] at h ⊢
  tauto

/-- A safe character is none of the structural characters of the URI
syntax. -/
theorem safe_ne (c : Char) (h : safeChar c = true) :
    c ≠ '%' ∧ c ≠ '&' ∧ c ≠ '=' ∧ c ≠ '?' ∧ c ≠ ':' := by
  refine ⟨?_, ?_, ?_, ?_, ?_⟩ <;> intro hc <;> rw [hc] at h <;> exact absurd h (by decide)

/-- A safe character is not JavaScript whitespace. -/
theorem safe_not_space (c : Char) (h : safeChar c = true) : isJsSpace c = false := by
  cases hs : isJsSpace c with
  | false => rfl
  | true =>
      exfalso
      unfold isJsSpace at hs
      simp only [Bool.or_eq_true, decide_eq_true_eq] at hs
      rcases hs with
        (((((((((hc | hc) | hc) | hc) | hc) | hc) | hc) | hc) | hc) | hc) <;>
        rw [hc] at h <;> exact absurd h (by decide)

/-- A safe character is not a line terminator. -/
theorem safe_not_lineterm (c : Char) (h : safeChar c = true) : isLineTerminator c = false := by
  cases hs : isLineTerminator c with
  | false => rfl
  | true =>
      exfalso
      unfold isLineTerminator at hs
      simp only [Bool.or_eq_true, decide_eq_true_eq] at hs
      rcases hs with (((hc | hc) | hc) | hc) <;> rw [hc] at h <;> exact absurd h (by decide)

/-- Decimal digit characters are safe. -/
theorem digit_safe (c : Char) (h : c.isDigit = true) : safeChar c = true := by
  unfold safeChar Char.isAlphanum
  simp only [Bool.or_eq_true]
  tauto

/-- The base32 alphabet consists of safe base32 characters. -/
theorem alpha_safe : ∀ s : Fin 32,
    safeChar (alphaChar s.val) = true ∧ isB32Char (alphaChar s.val) = true := by decide

/-- `encodeURIComponent` is the identity on safe strings. -/
theorem encodeURIComponent_safe_id (s : Str) (h : ∀ c ∈ s, safeChar c = true) :
    encodeURIComponent s = s := by
  induction s with
  | nil => rfl
  | cons c rest ih =>
      show encodeChar c ++ (rest.map encodeChar).flatten = c :: rest
      rw [show encodeChar c = [c] from by
        unfold encodeChar
        rw [if_pos (safe_unreserved c (h c (by simp)))]]
      rw [show (rest.map encodeChar).flatten = encodeURIComponent rest from rfl,
        ih (fun x hx => h x (by simp [hx]))]
      rfl

/-- The urlencoded serialization is the identity on safe strings. -/
theorem urlencode_safe_id (s : Str) (h : ∀ c ∈ s, safeChar c = true) :
    urlencode s = s := by
  induction s with
  | nil => rfl
  | cons c rest ih =>
      show urlencodeChar c ++ (rest.map urlencodeChar).flatten = c :: rest
      rw [show urlencodeChar c = [c] from by
        unfold urlencodeChar
        rw [if_pos (safe_urlencoded c (h c (by simp)))]]
      rw [show (rest.map urlencodeChar).flatten = urlencode rest from rfl,
        ih (fun x hx => h x (by simp [hx]))]
      rfl

/-- The decoding loop is the identity on percent-free strings, given
enough fuel. -/
theorem decodeAux_id (fuel : Nat) (s : Str) (hf : s.length ≤ fuel) (h : ∀ c ∈ s, c ≠ '%') :
    decodeAux fuel s = .ok s := by
  induction fuel generalizing s with
  | zero =>
      cases s with
      | nil => rfl
      | cons c rest => simp at hf
  | succ fuel ih =>
      cases s with
      | nil => rfl
      | cons c rest =>
          rw [decodeAux, if_neg (h c (by simp)),
            ih rest (by simp at hf; omega) (fun x hx => h x (by simp [hx]))]

/-- Percent-decoding is the identity on percent-free strings. -/
theorem decodeURIComponent_id (s : Str) (h : ∀ c ∈ s, c ≠ '%') :
    decodeURIComponent s = .ok s := by
  exact decodeAux_id s.length s le_rfl h

/-- `trim` is the identity on strings without whitespace. -/
theorem trimJS_id (s : Str) (h : ∀ c ∈ s, isJsSpace c = false) : trimJS s = s := by
  unfold trimJS
  rw [dropWhile_of_none s (fun c hc => by rw [h c hc]; exact Bool.false_ne_true),
    dropWhile_of_none s.reverse (fun c hc => by
      rw [h c (by simpa using hc)]
      exact Bool.false_ne_true),
    List.reverse_reverse]

/-- Splitting a separator-free string yields the single piece. -/
theorem splitSep_no_sep (sep : Char) (s : Str) (h : ∀ c ∈ s, c ≠ sep) :
    splitSep sep s = [s] := by
  induction s with
  | nil => rfl
  | cons c rest ih =>
      show (if c = sep then _ else
        match splitSep sep rest with
        | [] => [[c]]
        | p :: ps => (c :: p) :: ps) = [c :: rest]
      rw [if_neg (h c (by simp)), ih (fun x hx => h x (by simp [hx]))]

/-- Splitting after a separator-free prefix peels it off. -/
theorem splitSep_append (sep : Char) (a b : Str) (h : ∀ c ∈ a, c ≠ sep) :
    splitSep sep (a ++ sep :: b) = a :: splitSep sep b := by
  induction a with
  | nil =>
      show (if sep = sep then [] :: splitSep sep b else _) = [] :: splitSep sep b
      rw [if_pos rfl]
  | cons c rest ih =>
      show (if c = sep then _ else
        match splitSep sep (rest ++ sep :: b) with
        | [] => [[c]]
        | p :: ps => (c :: p) :: ps) = (c :: rest) :: splitSep sep b
      rw [if_neg (h c (by simp)), ih (fun x hx => h x (by simp [hx]))]

/-- A question-mark-free string has no last question mark. -/
theorem splitLastQ_none (b : Str) (hb : ∀ c ∈ b, c ≠ '?') : splitLastQ b = none := by
  induction b with
  | nil => rfl
  | cons c rest ih =>
      show (match splitLastQ rest with
        | some (a2, b2) => some (c :: a2, b2)
        | none => if c = '?' then some ([], rest) else none) = none
      rw [ih (fun x hx => hb x (by simp [hx])), if_neg (hb c (by simp))]

/-- Splitting at the last question mark: when the suffix after a
question mark is question-mark-free, the split lands there. -/
theorem splitLastQ_append (a b : Str) (hb : ∀ c ∈ b, c ≠ '?') :
    splitLastQ (a ++ '?' :: b) = some (a, b) := by
  induction a with
  | nil =>
      show (match splitLastQ b with
        | some (a2, b2) => some ('?' :: a2, b2)
        | none => if '?' = '?' then some (([] : Str), b) else none) = some (([] : Str), b)
      rw [splitLastQ_none b hb, if_pos rfl]
  | cons c rest ih =>
      show (match splitLastQ (rest ++ '?' :: b) with
        | some (a2, b2) => some (c :: a2, b2)
        | none => if c = '?' then some ([], rest ++ '?' :: b) else none) =
          some (c :: rest, b)
      rw [ih]

/-- A decimal digit character is not a sign character. -/
theorem digit_not_sign (c : Char) (h : c.isDigit = true) : c ≠ '+' ∧ c ≠ '-' := by
  constructor
  · intro e; rw [e] at h; exact absurd h (by decide)
  · intro e; rw [e] at h; exact absurd h (by decide)

/-- INTEGER_REGEX accepts every rendered natural number. -/
theorem integerTest_natToChars (n : Nat) : integerTest (natToChars n) = true := by
  cases hnn : natToChars n with
  | nil => exact absurd hnn (natToChars_ne_nil n)
  | cons c rest =>
      have hcd : c.isDigit = true := natToChars_all_digit n c (by rw [hnn]; simp)
      have hne : ¬(c = '+' ∨ c = '-') := by
        rintro (e | e) <;> rw [e] at hcd <;> exact absurd hcd (by decide)
      show (if c = '+' ∨ c = '-' then decide (rest ≠ []) && rest.all Char.isDigit
        else (c :: rest).all Char.isDigit) = true
      rw [if_neg hne, ← hnn]
      exact List.all_eq_true.mpr (fun c2 hc2 => natToChars_all_digit n c2 hc2)

/-- INTEGER_REGEX accepts every rendered integer. -/
theorem integerTest_intToChars (k : Int) : integerTest (intToChars k) = true := by
  unfold intToChars
  by_cases hk : k < 0
  · rw [if_pos hk]
    show (if ('-' : Char) = '+' ∨ ('-' : Char) = '-' then
        decide (natToChars k.natAbs ≠ []) && (natToChars k.natAbs).all Char.isDigit
      else (('-' : Char) :: natToChars k.natAbs).all Char.isDigit) = true
    rw [if_pos (Or.inr rfl),
      List.all_eq_true.mpr (fun c2 hc2 => natToChars_all_digit k.natAbs c2 hc2)]
    simp [natToChars_ne_nil k.natAbs]
  · rw [if_neg hk]
    exact integerTest_natToChars k.toNat

/-- `parseInt` recovers every rendered natural number. -/
theorem parseIntJS_natToChars (n : Nat) : parseIntJS (natToChars n) = (n : Int) := by
  cases hnn : natToChars n with
  | nil => exact absurd hnn (natToChars_ne_nil n)
  | cons c rest =>
      have hcd : c.isDigit = true := natToChars_all_digit n c (by rw [hnn]; simp)
      obtain ⟨hp, hm⟩ := digit_not_sign c hcd
      show (if c = '-' then -(parseDigits rest : Int)
        else if c = '+' then (parseDigits rest : Int) else (parseDigits (c :: rest) : Int)) =
          (n : Int)
      rw [if_neg hm, if_neg hp, ← hnn, parseDigits_natToChars]

/-- `parseInt` recovers every rendered integer. -/
theorem parseIntJS_intToChars (k : Int) : parseIntJS (intToChars k) = k := by
  unfold intToChars
  by_cases hk : k < 0
  · rw [if_pos hk]
    show (if ('-' : Char) = '-' then -(parseDigits (natToChars k.natAbs) : Int)
      else if ('-' : Char) = '+' then (parseDigits (natToChars k.natAbs) : Int)
      else (parseDigits (('-' : Char) :: natToChars k.natAbs) : Int)) = k
    rw [if_pos rfl, parseDigits_natToChars]
    omega
  · rw [if_neg hk, parseIntJS_natToChars]
    omega

/-- On a string that does not start with a plus sign,
POSITIVE_INTEGER_REGEX reduces to its digit part. -/
theorem positiveIntegerTest_not_plus (c : Char) (cs : Str) (h : c ≠ '+') :
    positiveIntegerTest (c :: cs) = posDigits (c :: cs) := by
  unfold positiveIntegerTest
  split
  · rename_i rest2 heq2
    injection heq2 with h1 h2
    exact absurd h1 h
  · rfl

/-- POSITIVE_INTEGER_REGEX accepts every rendered positive number. -/
theorem positiveIntegerTest_natToChars (n : Nat) (h : 1 ≤ n) :
    positiveIntegerTest (natToChars n) = true := by
  obtain ⟨d, rest, heq, hd1, hd10, hrest⟩ := natToChars_head_nonzero n (by omega)
  have hplus : digitChar d ≠ '+' := by interval_cases d <;> decide
  have hpos : posDigits (natToChars n) = true := by
    rw [heq]
    show ((decide ('1' ≤ digitChar d) && decide (digitChar d ≤ '9')) &&
      rest.all Char.isDigit) = true
    have h19 : (decide ('1' ≤ digitChar d) && decide (digitChar d ≤ '9')) = true := by
      interval_cases d <;> decide
    rw [h19, List.all_eq_true.mpr (fun c hc =>
      natToChars_all_digit n c (by rw [heq]; exact List.mem_cons_of_mem _ hc))]
    rfl
  rw [heq, positiveIntegerTest_not_plus _ _ hplus, ← heq]
  exact hpos

/-- Rendered natural numbers consist of safe characters. -/
theorem natToChars_safe (n : Nat) : ∀ c ∈ natToChars n, safeChar c = true :=
  fun c hc => digit_safe c (natToChars_all_digit n c hc)

/-- Rendered integers consist of safe characters. -/
theorem intToChars_safe (k : Int) : ∀ c ∈ intToChars k, safeChar c = true := by
  intro c hc
  unfold intToChars at hc
  by_cases hk : k < 0
  · rw [if_pos hk] at hc
    rcases List.mem_cons.mp hc with e | hm
    · rw [e]; decide
    · exact digit_safe c (natToChars_all_digit _ c hm)
  · rw [if_neg hk] at hc
    exact digit_safe c (natToChars_all_digit _ c hc)

/-- Characters of an encoded base32 string are alphabet symbols, hence
safe and of the SECRET_REGEX class. -/
theorem base32Encode_chars (bs : List Nat) :
    ∀ c ∈ base32Encode bs, safeChar c = true ∧ isB32Char c = true := by
  intro c hc
  unfold base32Encode at hc
  rw [List.mem_map] at hc
  obtain ⟨s, hs, hcs⟩ := hc
  have hlt : s < 32 := encodeCore_lt32 bs 0 0 s hs
  have hfacts := alpha_safe ⟨s, hlt⟩
  rw [← hcs]
  exact hfacts

/-- A nonempty byte sequence encodes to a nonempty base32 string. -/
theorem base32Encode_ne_nil (b : Nat) (rest : List Nat) : base32Encode (b :: rest) ≠ [] := by
  show (encodeCore (b :: rest) 0 0).map alphaChar ≠ []
  rw [show encodeCore (b :: rest) 0 0 =
      ((0 * 256 + b) / 2 ^ 3 % 32) :: ((drain 3 (0 * 256 + b)).1 ++
        encodeCore rest (drain (0 + 8) (0 * 256 + b)).2 (0 * 256 + b)) from rfl]
  simp

/-- SECRET_REGEX accepts every nonempty string of base32 characters. -/
theorem secretTest_of (s : Str) (h : s ≠ []) (hall : ∀ c ∈ s, isB32Char c = true) :
    secretTest s = true := by
  unfold secretTest
  have ht : s.takeWhile isB32Char = s := List.takeWhile_eq_self_iff.mpr hall
  rw [ht]
  show (decide (s ≠ []) && (List.drop s.length s).all fun c => decide (c = '=')) = true
  rw [List.drop_length]
  simp [h]

/-- `takeWhile` over an append stops exactly at a failing separator. -/
theorem takeWhile_append_stop (p : Char → Bool) (k : Str) (x : Char) (v : Str)
    (hk : ∀ c ∈ k, p c = true) (hx : p x = false) :
    (k ++ x :: v).takeWhile p = k := by
  induction k with
  | nil => simp [List.takeWhile, hx]
  | cons c rest ih =>
      show List.takeWhile p (c :: (rest ++ x :: v)) = c :: rest
      rw [List.takeWhile_cons, hk c (by simp)]
      show c :: List.takeWhile p (rest ++ x :: v) = c :: rest
      rw [ih (fun c2 hc2 => hk c2 (by simp [hc2]))]

/-- Splitting at the first equals sign after an equals-free key. -/
theorem splitFirstEq_append (k v : Str) (hk : ∀ c ∈ k, c ≠ '=') :
    splitFirstEq (k ++ '=' :: v) = (k, some v) := by
  induction k with
  | nil =>
      show (if ('=' : Char) = '=' then (([] : Str), some v)
        else ('=' :: (splitFirstEq v).1, (splitFirstEq v).2)) = (([] : Str), some v)
      rw [if_pos rfl]
  | cons c rest ih =>
      show (if c = '=' then ([], some (rest ++ '=' :: v))
        else (c :: (splitFirstEq (rest ++ '=' :: v)).1, (splitFirstEq (rest ++ '=' :: v)).2)) =
          (c :: rest, some v)
      rw [if_neg (hk c (by simp)), ih (fun x hx => hk x (by simp [hx]))]

/-- Splitting a joined list of ampersand-free pieces recovers it. -/
theorem splitSep_joinAmp (ps : List Str) (h : ∀ p ∈ ps, ∀ c ∈ p, c ≠ '&') (hne : ps ≠ []) :
    splitSep '&' (joinAmp ps) = ps := by
  induction ps with
  | nil => exact absurd rfl hne
  | cons p rest ih =>
      cases rest with
      | nil => exact splitSep_no_sep '&' p (h p (by simp))
      | cons q rest2 =>
          show splitSep '&' (p ++ '&' :: joinAmp (q :: rest2)) = p :: q :: rest2
          rw [splitSep_append '&' p _ (h p (by simp)),
            ih (fun r hr => h r (by simp [hr])) (by simp)]

/-- A character property that holds on every piece and on the
separator holds on the joined string. -/
theorem joinAmp_forall (P : Char → Prop) (hsep : P '&') (ps : List Str)
    (h : ∀ p ∈ ps, ∀ c ∈ p, P c) : ∀ c ∈ joinAmp ps, P c := by
  induction ps with
  | nil => intro c hc; simp [joinAmp] at hc
  | cons p rest ih =>
      cases rest with
      | nil => intro c hc; exact h p (by simp) c hc
      | cons q rest2 =>
          intro c hc
          have hc2 : c ∈ p ++ '&' :: joinAmp (q :: rest2) := hc
          rw [List.mem_append] at hc2
          rcases hc2 with hcp | hcr
          · exact h p (by simp) c hcp
          · rcases List.mem_cons.mp hcr with hceq | hcj
            · rw [hceq]; exact hsep
            · exact ih (fun r hr => h r (by simp [hr])) c hcj

/-- A rendered `key=value` piece passes the parameter-unit check of
OTPURI_REGEX when the key is of the key class and the value avoids the
structural characters. -/
theorem paramPieceOk_key (k v : Str) (hk0 : k ≠ []) (hk : ∀ c ∈ k, isKeyChar c = true)
    (hv : ∀ c ∈ v, c ≠ '?' ∧ c ≠ '&') : paramPieceOk (k ++ '=' :: v) = true := by
  unfold paramPieceOk
  have ht : (k ++ '=' :: v).takeWhile isKeyChar = k :=
    takeWhile_append_stop isKeyChar k '=' v hk (by decide)
  rw [ht]
  show (decide (k ≠ []) &&
      match List.drop k.length (k ++ '=' :: v) with
      | '=' :: v2 => v2.all fun c => decide (c ≠ '?') && decide (c ≠ '&')
      | _ => false) = true
  rw [List.drop_left]
  have hvall : v.all (fun c => decide (c ≠ '?') && decide (c ≠ '&')) = true :=
    List.all_eq_true.mpr (fun c hc => by
      obtain ⟨h1, h2⟩ := hv c hc
      simp [h1, h2])
  show (decide (k ≠ []) && v.all fun c => decide (c ≠ '?') && decide (c ≠ '&')) = true
  rw [hvall]
  simp [hk0]

/-- Decoding a rendered `key=value` piece with a plain key and a
percent-free value. -/
theorem decodePiece_kv (k v : Str) (hk : ∀ c ∈ k, c ≠ '=')
    (hkd : decodeURIComponent k = .ok k) (hkl : toLowerStr k = k)
    (hv : ∀ c ∈ v, c ≠ '%') : decodePiece (k ++ '=' :: v) = .ok (k, v) := by
  unfold decodePiece
  rw [splitFirstEq_append k v hk]
  show (do
    let k2 ← decodeURIComponent k
    let v2 ← decodeURIComponent ((some v).getD [])
    pure (toLowerStr k2, v2) : Except Str (Str × Str)) = .ok (k, v)
  rw [show (some v).getD ([] : Str) = v from rfl, hkd, decodeURIComponent_id v hv]
  show Except.ok (toLowerStr k, v) = Except.ok (k, v)
  rw [hkl]

/-- The canonical algorithm names are fixed points of
canonicalization, uppercase-stable, nonempty and safe. -/
theorem canonicalAlgorithms_fixed : ∀ a ∈ canonicalAlgorithms,
    canonicalizeAlgorithm a = .ok a ∧ toUpperStr a = a ∧ a ≠ [] ∧
      ∀ c ∈ a, safeChar c = true := by decide

/-- The label group check holds for nonempty labels without line
terminators. -/
theorem labelOk_of (L : Str) (hL : L ≠ []) (hLl : ∀ c ∈ L, isLineTerminator c = false) :
    labelOk L = true := by
  unfold labelOk
  rw [List.all_eq_true.mpr (fun c hc => by rw [hLl c hc]; rfl)]
  simp [hL]

/-- OTPURI_REGEX decomposes a rendered hotp URI into its type, label
and parameter block. -/
theorem uriMatch_hotp (LBL P : Str) (hL : LBL ≠ [])
    (hLl : ∀ c ∈ LBL, isLineTerminator c = false)
    (hPq : ∀ c ∈ P, c ≠ '?')
    (hpp : (splitSep '&' P).all paramPieceOk = true) :
    uriMatch ("otpauth://hotp/".toList ++ (LBL ++ '?' :: P)) =
      some ("hotp".toList, LBL, P) := by
  unfold uriMatch
  rw [show "otpauth://hotp/".toList ++ (LBL ++ '?' :: P) =
    ("otpauth://hotp/".toList ++ LBL) ++ '?' :: P from (List.append_assoc _ _ _).symm]
  rw [splitLastQ_append _ _ hPq]
  show (if (splitSep '&' P).all paramPieceOk then _ else none) = _
  rw [hpp, if_pos rfl]
  have hcond : toLowerStr (List.take 10 ("otpauth://hotp/".toList ++ LBL)) =
        "otpauth://".toList ∧
      (toLowerStr (List.take 4 (List.drop 10 ("otpauth://hotp/".toList ++ LBL))) =
          "hotp".toList ∨
        toLowerStr (List.take 4 (List.drop 10 ("otpauth://hotp/".toList ++ LBL))) =
          "totp".toList) ∧
      List.take 1 (List.drop 14 ("otpauth://hotp/".toList ++ LBL)) = ['/'] ∧
      labelOk (List.drop 15 ("otpauth://hotp/".toList ++ LBL)) = true :=
    ⟨rfl, Or.inl rfl, rfl, labelOk_of LBL hL hLl⟩
  rw [if_pos hcond]
  rfl

/-- OTPURI_REGEX decomposes a rendered totp URI into its type, label
and parameter block. -/
theorem uriMatch_totp (LBL P : Str) (hL : LBL ≠ [])
    (hLl : ∀ c ∈ LBL, isLineTerminator c = false)
    (hPq : ∀ c ∈ P, c ≠ '?')
    (hpp : (splitSep '&' P).all paramPieceOk = true) :
    uriMatch ("otpauth://totp/".toList ++ (LBL ++ '?' :: P)) =
      some ("totp".toList, LBL, P) := by
  unfold uriMatch
  rw [show "otpauth://totp/".toList ++ (LBL ++ '?' :: P) =
    ("otpauth://totp/".toList ++ LBL) ++ '?' :: P from (List.append_assoc _ _ _).symm]
  rw [splitLastQ_append _ _ hPq]
  show (if (splitSep '&' P).all paramPieceOk then _ else none) = _
  rw [hpp, if_pos rfl]
  have hcond : toLowerStr (List.take 10 ("otpauth://totp/".toList ++ LBL)) =
        "otpauth://".toList ∧
      (toLowerStr (List.take 4 (List.drop 10 ("otpauth://totp/".toList ++ LBL))) =
          "hotp".toList ∨
        toLowerStr (List.take 4 (List.drop 10 ("otpauth://totp/".toList ++ LBL))) =
          "totp".toList) ∧
      List.take 1 (List.drop 14 ("otpauth://totp/".toList ++ LBL)) = ['/'] ∧
      labelOk (List.drop 15 ("otpauth://totp/".toList ++ LBL)) = true :=
    ⟨rfl, Or.inr rfl, rfl, labelOk_of LBL hL hLl⟩
  rw [if_pos hcond]
  rfl

/-- Evaluation of the shared parse tail from the values of its
parameter lookups. -/
theorem parseCommon_eval (kvs : List (Str × Str)) (rawLabel DL sv dv : Str)
    (res : Option Str × Str × Option Bool) (bytes : List Nat) (algOpt : Option Str)
    (hdl : decodeURIComponent rawLabel = .ok DL)
    (hres : resolveLabel (issuerParam kvs) DL = res)
    (hsv : lookupParam kvs "secret".toList = some sv)
    (hst : secretTest sv = true)
    (hdec : base32Decode sv = .ok bytes)
    (halg : lookupParam kvs "algorithm".toList = algOpt)
    (hdg : lookupParam kvs "digits".toList = some dv)
    (hdgt : positiveIntegerTest dv = true) :
    parseCommon kvs rawLabel =
      .ok (res.1, res.2.1, res.2.2, bytes, algOpt, some (parseIntJS dv).toNat) := by
  unfold parseCommon
  rw [hdl]
  dsimp only [Except.instMonad, Bind.bind, Except.bind, Pure.pure, Except.pure]
  rw [hres, hsv]
  dsimp only []
  rw [hst, if_pos rfl, hdec]
  dsimp only [Except.instMonad, Bind.bind, Except.bind, Pure.pure, Except.pure]
  rw [halg, hdg]
  dsimp only []
  rw [hdgt, if_pos rfl]

/-- One step of parameter-list decoding. -/
theorem mapPieces_cons (p : Str) (ps : List Str) (kv : Str × Str) (rest : List (Str × Str))
    (h1 : decodePiece p = .ok kv) (h2 : mapPieces ps = .ok rest) :
    mapPieces (p :: ps) = .ok (kv :: rest) := by
  unfold mapPieces
  rw [h1]
  dsimp only [Except.instMonad, Bind.bind, Except.bind, Pure.pure, Except.pure]
  rw [h2]

/-- Evaluation of the hotp branch of `URI.parse` from the regex match,
the decoded parameters and a valid counter parameter. -/
theorem uriParse_hotp_eval (uri LBL P : Str) (kvs : List (Str × Str)) (v : Str)
    (hm : uriMatch uri = some ("hotp".toList, LBL, P))
    (hmp : mapPieces (splitSep '&' P) = .ok kvs)
    (hcv : lookupParam kvs "counter".toList = some v)
    (hiv : integerTest v = true) :
    uriParse uri = hotpFinish kvs LBL (parseIntJS v) := by
  unfold uriParse
  rw [hm]
  dsimp only []
  rw [hmp]
  dsimp only []
  rw [if_pos (show toLowerStr "hotp".toList = "hotp".toList from rfl), hcv]
  dsimp only []
  rw [hiv, if_pos rfl]

/-- Evaluation of the totp branch of `URI.parse` from the regex match,
the decoded parameters and a valid period parameter. -/
theorem uriParse_totp_eval (uri LBL P : Str) (kvs : List (Str × Str)) (v : Str)
    (hm : uriMatch uri = some ("totp".toList, LBL, P))
    (hmp : mapPieces (splitSep '&' P) = .ok kvs)
    (hpv : lookupParam kvs "period".toList = some v)
    (hpt : positiveIntegerTest v = true) :
    uriParse uri = totpFinish kvs LBL (some (parseIntJS v).toNat) := by
  unfold uriParse
  rw [hm]
  dsimp only []
  rw [hmp]
  dsimp only []
  rw [if_pos (show toLowerStr "totp".toList = "totp".toList from rfl), hpv]
  dsimp only []
  rw [hpt, if_pos rfl,
    if_neg (show ¬toLowerStr "totp".toList = "hotp".toList from by decide)]

/-- Combined character facts for one rendered `key=value` piece: no
question mark, no ampersand, and the parameter-unit check passes. -/
theorem piece_facts (k v : Str) (hk0 : k ≠ [])
    (hkall : ∀ c ∈ k, isKeyChar c = true ∧ c ≠ '&' ∧ c ≠ '?' ∧ c ≠ '=')
    (hvsafe : ∀ c ∈ v, safeChar c = true) :
    (∀ c ∈ k ++ '=' :: v, c ≠ '?') ∧ (∀ c ∈ k ++ '=' :: v, c ≠ '&') ∧
      paramPieceOk (k ++ '=' :: v) = true := by
  have hv2 : ∀ c ∈ v, c ≠ '?' ∧ c ≠ '&' := fun c hc =>
    ⟨(safe_ne c (hvsafe c hc)).2.2.2.1, (safe_ne c (hvsafe c hc)).2.1⟩
  refine ⟨?_, ?_, paramPieceOk_key k v hk0 (fun c hc => (hkall c hc).1) hv2⟩
  · intro c hc
    rcases List.mem_append.mp hc with h1 | h2
    · exact (hkall c h1).2.2.1
    · rcases List.mem_cons.mp h2 with e | h3
      · rw [e]; decide
      · exact (hv2 c h3).1
  · intro c hc
    rcases List.mem_append.mp hc with h1 | h2
    · exact (hkall c h1).2.1
    · rcases List.mem_cons.mp h2 with e | h3
      · rw [e]; decide
      · exact (hv2 c h3).2

/-- Round trip of a hotp configuration through its URI, for safe field
values: the reparsed configuration agrees on issuer, label, algorithm,
digits, counter and secret. -/
theorem hotp_uri_roundtrip (h : HOTP)
    (hl : h.label ≠ []) (hls : ∀ c ∈ h.label, safeChar c = true)
    (his : ∀ c ∈ h.issuer, safeChar c = true)
    (hs0 : h.secret ≠ []) (hsb : ∀ x ∈ h.secret, x < 256)
    (halg : ∀ c ∈ h.algorithm, safeChar c = true)
    (halgU : toUpperStr h.algorithm = h.algorithm)
    (hd : 1 ≤ h.digits) :
    ∃ out : HOTP, uriParse (hotpToString h) = .ok (.inl out) ∧
      out.issuer = h.issuer ∧ out.label = h.label ∧ out.algorithm = h.algorithm ∧
      out.digits = h.digits ∧ out.counter = h.counter ∧ out.secret = h.secret := by
  have hsvsafe : ∀ c ∈ base32Encode h.secret, safeChar c = true :=
    fun c hc => (base32Encode_chars _ c hc).1
  have hsvb32 : ∀ c ∈ base32Encode h.secret, isB32Char c = true :=
    fun c hc => (base32Encode_chars _ c hc).2
  have hdvsafe : ∀ c ∈ natToChars h.digits, safeChar c = true := natToChars_safe h.digits
  have hcvsafe : ∀ c ∈ intToChars h.counter, safeChar c = true := intToChars_safe h.counter
  have hf1 := piece_facts "secret".toList (base32Encode h.secret) (by decide) (by decide) hsvsafe
  have hf2 := piece_facts "algorithm".toList h.algorithm (by decide) (by decide) halg
  have hf3 := piece_facts "digits".toList (natToChars h.digits) (by decide) (by decide) hdvsafe
  have hf4 := piece_facts "counter".toList (intToChars h.counter) (by decide) (by decide) hcvsafe
  have hf5 := piece_facts "issuer".toList h.issuer (by decide) (by decide) his
  have hdp1 : decodePiece ("secret".toList ++ '=' :: base32Encode h.secret) =
      .ok ("secret".toList, base32Encode h.secret) :=
    decodePiece_kv _ _ (by decide) rfl rfl (fun c hc => (safe_ne c (hsvsafe c hc)).1)
  have hdp2 : decodePiece ("algorithm".toList ++ '=' :: h.algorithm) =
      .ok ("algorithm".toList, h.algorithm) :=
    decodePiece_kv _ _ (by decide) rfl rfl (fun c hc => (safe_ne c (halg c hc)).1)
  have hdp3 : decodePiece ("digits".toList ++ '=' :: natToChars h.digits) =
      .ok ("digits".toList, natToChars h.digits) :=
    decodePiece_kv _ _ (by decide) rfl rfl (fun c hc => (safe_ne c (hdvsafe c hc)).1)
  have hdp4 : decodePiece ("counter".toList ++ '=' :: intToChars h.counter) =
      .ok ("counter".toList, intToChars h.counter) :=
    decodePiece_kv _ _ (by decide) rfl rfl (fun c hc => (safe_ne c (hcvsafe c hc)).1)
  have hdp5 : decodePiece ("issuer".toList ++ '=' :: h.issuer) =
      .ok ("issuer".toList, h.issuer) :=
    decodePiece_kv _ _ (by decide) rfl rfl (fun c hc => (safe_ne c (his c hc)).1)
  have hsvne : base32Encode h.secret ≠ [] := by
    cases hsec : h.secret with
    | nil => exact absurd hsec hs0
    | cons b r => exact base32Encode_ne_nil b r
  have hst : secretTest (base32Encode h.secret) = true :=
    secretTest_of _ hsvne hsvb32
  have hdec : base32Decode (base32Encode h.secret) = .ok h.secret :=
    base32_encode_then_decode h.secret hsb
  have hdl0 : decodeURIComponent h.label = .ok h.label :=
    decodeURIComponent_id _ (fun c hc => (safe_ne c (hls c hc)).1)
  have hlblLT : ∀ c ∈ h.label, isLineTerminator c = false :=
    fun c hc => safe_not_lineterm c (hls c hc)
  have hlblCF : ∀ c ∈ h.label, c ≠ ':' := fun c hc => (safe_ne c (hls c hc)).2.2.2.2
  have htrimL : trimJS h.label = h.label :=
    trimJS_id _ (fun c hc => safe_not_space c (hls c hc))
  have hdigits : (parseIntJS (natToChars h.digits)).toNat = h.digits := by
    rw [parseIntJS_natToChars]; omega
  have hcounter : parseIntJS (intToChars h.counter) = h.counter :=
    parseIntJS_intToChars h.counter
  by_cases hiss : h.issuer = []
  · -- no issuer: four parameters and a plain label
    have hps : ∀ p ∈ ["secret".toList ++ '=' :: base32Encode h.secret,
        "algorithm".toList ++ '=' :: h.algorithm,
        "digits".toList ++ '=' :: natToChars h.digits,
        "counter".toList ++ '=' :: intToChars h.counter],
        (∀ c ∈ p, c ≠ '?') ∧ (∀ c ∈ p, c ≠ '&') ∧ paramPieceOk p = true := by
      intro p hp
      fin_cases hp
      exacts [hf1, hf2, hf3, hf4]
    have hren : hotpToString h = "otpauth://hotp/".toList ++ (h.label ++ '?' ::
        joinAmp ["secret".toList ++ '=' :: base32Encode h.secret,
          "algorithm".toList ++ '=' :: h.algorithm,
          "digits".toList ++ '=' :: natToChars h.digits,
          "counter".toList ++ '=' :: intToChars h.counter]) := by
      unfold hotpToString
      rw [hiss]
      rw [if_neg (by simp), if_neg (by simp)]
      rw [encodeURIComponent_safe_id h.label hls,
        urlencode_safe_id _ hsvsafe, urlencode_safe_id _ halg,
        urlencode_safe_id _ hdvsafe, urlencode_safe_id _ hcvsafe,
        List.append_nil]
      simp only [joinAmp, List.append_assoc, List.cons_append]
      rfl
    have hsplit : splitSep '&' (joinAmp ["secret".toList ++ '=' :: base32Encode h.secret,
        "algorithm".toList ++ '=' :: h.algorithm,
        "digits".toList ++ '=' :: natToChars h.digits,
        "counter".toList ++ '=' :: intToChars h.counter]) =
        ["secret".toList ++ '=' :: base32Encode h.secret,
          "algorithm".toList ++ '=' :: h.algorithm,
          "digits".toList ++ '=' :: natToChars h.digits,
          "counter".toList ++ '=' :: intToChars h.counter] :=
      splitSep_joinAmp _ (fun p hp => (hps p hp).2.1) (by simp)
    have hm : uriMatch (hotpToString h) = some ("hotp".toList, h.label,
        joinAmp ["secret".toList ++ '=' :: base32Encode h.secret,
          "algorithm".toList ++ '=' :: h.algorithm,
          "digits".toList ++ '=' :: natToChars h.digits,
          "counter".toList ++ '=' :: intToChars h.counter]) := by
      rw [hren]
      exact uriMatch_hotp _ _ hl hlblLT
        (joinAmp_forall (fun c => c ≠ '?') (by decide) _ (fun p hp => (hps p hp).1))
        (by rw [hsplit]; exact List.all_eq_true.mpr (fun p hp => (hps p hp).2.2))
    have hmp : mapPieces (splitSep '&'
        (joinAmp ["secret".toList ++ '=' :: base32Encode h.secret,
          "algorithm".toList ++ '=' :: h.algorithm,
          "digits".toList ++ '=' :: natToChars h.digits,
          "counter".toList ++ '=' :: intToChars h.counter])) =
        .ok [("secret".toList, base32Encode h.secret),
          ("algorithm".toList, h.algorithm),
          ("digits".toList, natToChars h.digits),
          ("counter".toList, intToChars h.counter)] := by
      rw [hsplit]
      exact mapPieces_cons _ _ _ _ hdp1 (mapPieces_cons _ _ _ _ hdp2
        (mapPieces_cons _ _ _ _ hdp3 (mapPieces_cons _ _ _ _ hdp4 rfl)))
    have hres : resolveLabel (issuerParam [("secret".toList, base32Encode h.secret),
        ("algorithm".toList, h.algorithm),
        ("digits".toList, natToChars h.digits),
        ("counter".toList, intToChars h.counter)]) h.label =
        (none, h.label, none) := by
      rw [show issuerParam [("secret".toList, base32Encode h.secret),
        ("algorithm".toList, h.algorithm),
        ("digits".toList, natToChars h.digits),
        ("counter".toList, intToChars h.counter)] = none from rfl]
      unfold resolveLabel
      rw [splitSep_no_sep ':' h.label hlblCF]
      dsimp only [List.headD]
      rw [if_neg (fun hcon => hcon rfl), htrimL]
    have hpc : parseCommon [("secret".toList, base32Encode h.secret),
        ("algorithm".toList, h.algorithm),
        ("digits".toList, natToChars h.digits),
        ("counter".toList, intToChars h.counter)] h.label =
        .ok (none, h.label, none, h.secret, some h.algorithm,
          some (parseIntJS (natToChars h.digits)).toNat) :=
      parseCommon_eval _ _ _ _ _ (none, h.label, none) _ _ hdl0 hres rfl hst hdec rfl rfl
        (positiveIntegerTest_natToChars h.digits hd)
    have hfin : hotpFinish [("secret".toList, base32Encode h.secret),
        ("algorithm".toList, h.algorithm),
        ("digits".toList, natToChars h.digits),
        ("counter".toList, intToChars h.counter)] h.label
        (parseIntJS (intToChars h.counter)) =
        .ok (.inl ⟨[], h.label, true, h.secret, toUpperStr h.algorithm,
          (parseIntJS (natToChars h.digits)).toNat, parseIntJS (intToChars h.counter)⟩) := by
      unfold hotpFinish
      rw [hpc]
      rfl
    refine ⟨⟨[], h.label, true, h.secret, toUpperStr h.algorithm,
      (parseIntJS (natToChars h.digits)).toNat, parseIntJS (intToChars h.counter)⟩,
      ?_, hiss.symm, rfl, halgU, hdigits, hcounter, rfl⟩
    exact (uriParse_hotp_eval _ _ _ _ _ hm hmp rfl
      (integerTest_intToChars h.counter)).trans hfin
  · -- issuer present: five parameters
    have hissl : 0 < h.issuer.length := List.length_pos.mpr hiss
    have hips : ∀ p ∈ ["secret".toList ++ '=' :: base32Encode h.secret,
        "algorithm".toList ++ '=' :: h.algorithm,
        "digits".toList ++ '=' :: natToChars h.digits,
        "counter".toList ++ '=' :: intToChars h.counter,
        "issuer".toList ++ '=' :: h.issuer],
        (∀ c ∈ p, c ≠ '?') ∧ (∀ c ∈ p, c ≠ '&') ∧ paramPieceOk p = true := by
      intro p hp
      fin_cases hp
      exacts [hf1, hf2, hf3, hf4, hf5]
    have hsplit : splitSep '&' (joinAmp ["secret".toList ++ '=' :: base32Encode h.secret,
        "algorithm".toList ++ '=' :: h.algorithm,
        "digits".toList ++ '=' :: natToChars h.digits,
        "counter".toList ++ '=' :: intToChars h.counter,
        "issuer".toList ++ '=' :: h.issuer]) = ["secret".toList ++ '=' :: base32Encode h.secret,
        "algorithm".toList ++ '=' :: h.algorithm,
        "digits".toList ++ '=' :: natToChars h.digits,
        "counter".toList ++ '=' :: intToChars h.counter,
        "issuer".toList ++ '=' :: h.issuer] :=
      splitSep_joinAmp _ (fun p hp => (hips p hp).2.1) (by simp)
    have hmp : mapPieces (splitSep '&' (joinAmp ["secret".toList ++ '=' :: base32Encode h.secret,
        "algorithm".toList ++ '=' :: h.algorithm,
        "digits".toList ++ '=' :: natToChars h.digits,
        "counter".toList ++ '=' :: intToChars h.counter,
        "issuer".toList ++ '=' :: h.issuer])) = .ok [("secret".toList, base32Encode h.secret),
        ("algorithm".toList, h.algorithm),
        ("digits".toList, natToChars h.digits),
        ("counter".toList, intToChars h.counter),
        ("issuer".toList, h.issuer)] := by
      rw [hsplit]
      exact mapPieces_cons _ _ _ _ hdp1 (mapPieces_cons _ _ _ _ hdp2
        (mapPieces_cons _ _ _ _ hdp3 (mapPieces_cons _ _ _ _ hdp4
          (mapPieces_cons _ _ _ _ hdp5 rfl))))
    have hip : issuerParam [("secret".toList, base32Encode h.secret),
        ("algorithm".toList, h.algorithm),
        ("digits".toList, natToChars h.digits),
        ("counter".toList, intToChars h.counter),
        ("issuer".toList, h.issuer)] = some h.issuer := by
      unfold issuerParam
      rw [show lookupParam [("secret".toList, base32Encode h.secret),
        ("algorithm".toList, h.algorithm),
        ("digits".toList, natToChars h.digits),
        ("counter".toList, intToChars h.counter),
        ("issuer".toList, h.issuer)] "issuer".toList = some h.issuer from rfl]
      dsimp only []
      rw [if_pos hiss]
    have hicf : ∀ c ∈ h.issuer, c ≠ ':' := fun c hc => (safe_ne c (his c hc)).2.2.2.2
    have hinp : ∀ c ∈ h.issuer, c ≠ '%' := fun c hc => (safe_ne c (his c hc)).1
    have htrimI : trimJS h.issuer = h.issuer :=
      trimJS_id _ (fun c hc => safe_not_space c (his c hc))
    by_cases hiil : h.issuerInLabel = true
    · -- issuer carried inside the label
      have hren : hotpToString h = "otpauth://hotp/".toList ++
          ((h.issuer ++ ':' :: h.label) ++ '?' :: joinAmp ["secret".toList ++ '=' :: base32Encode h.secret,
        "algorithm".toList ++ '=' :: h.algorithm,
        "digits".toList ++ '=' :: natToChars h.digits,
        "counter".toList ++ '=' :: intToChars h.counter,
        "issuer".toList ++ '=' :: h.issuer]) := by
        unfold hotpToString
        rw [if_pos (And.intro hissl hiil), if_pos hissl]
        rw [encodeURIComponent_safe_id h.label hls, encodeURIComponent_safe_id h.issuer his,
          urlencode_safe_id _ hsvsafe, urlencode_safe_id _ halg,
          urlencode_safe_id _ hdvsafe, urlencode_safe_id _ hcvsafe,
          urlencode_safe_id _ his]
        simp only [joinAmp, List.append_assoc, List.cons_append]
        rfl
      have hLne : h.issuer ++ ':' :: h.label ≠ [] := by simp
      have hLlt : ∀ c ∈ h.issuer ++ ':' :: h.label, isLineTerminator c = false := by
        intro c hc
        rcases List.mem_append.mp hc with h1 | h2
        · exact safe_not_lineterm c (his c h1)
        · rcases List.mem_cons.mp h2 with e | h3
          · rw [e]; decide
          · exact safe_not_lineterm c (hls c h3)
      have hdlL : decodeURIComponent (h.issuer ++ ':' :: h.label) =
          .ok (h.issuer ++ ':' :: h.label) := by
        refine decodeURIComponent_id _ ?_
        intro c hc
        rcases List.mem_append.mp hc with h1 | h2
        · exact hinp c h1
        · rcases List.mem_cons.mp h2 with e | h3
          · rw [e]; decide
          · exact (safe_ne c (hls c h3)).1
      have hm : uriMatch (hotpToString h) = some ("hotp".toList,
          h.issuer ++ ':' :: h.label, joinAmp ["secret".toList ++ '=' :: base32Encode h.secret,
        "algorithm".toList ++ '=' :: h.algorithm,
        "digits".toList ++ '=' :: natToChars h.digits,
        "counter".toList ++ '=' :: intToChars h.counter,
        "issuer".toList ++ '=' :: h.issuer]) := by
        rw [hren]
        exact uriMatch_hotp _ _ hLne hLlt
          (joinAmp_forall (fun c => c ≠ '?') (by decide) _ (fun p hp => (hips p hp).1))
          (by rw [hsplit]; exact List.all_eq_true.mpr (fun p hp => (hips p hp).2.2))
      have hres : resolveLabel (issuerParam [("secret".toList, base32Encode h.secret),
        ("algorithm".toList, h.algorithm),
        ("digits".toList, natToChars h.digits),
        ("counter".toList, intToChars h.counter),
        ("issuer".toList, h.issuer)]) (h.issuer ++ ':' :: h.label) =
          (some h.issuer, h.label, none) := by
        rw [hip]
        unfold resolveLabel
        rw [splitSep_append ':' h.issuer h.label hicf, splitSep_no_sep ':' h.label hlblCF]
        dsimp only []
        rw [if_neg (by simp), htrimL]
      have hpc : parseCommon [("secret".toList, base32Encode h.secret),
        ("algorithm".toList, h.algorithm),
        ("digits".toList, natToChars h.digits),
        ("counter".toList, intToChars h.counter),
        ("issuer".toList, h.issuer)] (h.issuer ++ ':' :: h.label) =
          .ok (some h.issuer, h.label, none, h.secret, some h.algorithm,
            some (parseIntJS (natToChars h.digits)).toNat) :=
        parseCommon_eval _ _ _ _ _ (some h.issuer, h.label, none) _ _ hdlL hres rfl hst hdec
          rfl rfl (positiveIntegerTest_natToChars h.digits hd)
      have hfin : hotpFinish [("secret".toList, base32Encode h.secret),
        ("algorithm".toList, h.algorithm),
        ("digits".toList, natToChars h.digits),
        ("counter".toList, intToChars h.counter),
        ("issuer".toList, h.issuer)] (h.issuer ++ ':' :: h.label)
          (parseIntJS (intToChars h.counter)) =
          .ok (.inl ⟨h.issuer, h.label, true, h.secret, toUpperStr h.algorithm,
            (parseIntJS (natToChars h.digits)).toNat,
            parseIntJS (intToChars h.counter)⟩) := by
        unfold hotpFinish
        rw [hpc]
        rfl
      refine ⟨⟨h.issuer, h.label, true, h.secret, toUpperStr h.algorithm,
        (parseIntJS (natToChars h.digits)).toNat, parseIntJS (intToChars h.counter)⟩,
        ?_, rfl, rfl, halgU, hdigits, hcounter, rfl⟩
      exact (uriParse_hotp_eval _ _ _ _ _ hm hmp rfl
        (integerTest_intToChars h.counter)).trans hfin
    · -- issuer kept out of the label
      have hren : hotpToString h = "otpauth://hotp/".toList ++
          (h.label ++ '?' :: joinAmp ["secret".toList ++ '=' :: base32Encode h.secret,
        "algorithm".toList ++ '=' :: h.algorithm,
        "digits".toList ++ '=' :: natToChars h.digits,
        "counter".toList ++ '=' :: intToChars h.counter,
        "issuer".toList ++ '=' :: h.issuer]) := by
        unfold hotpToString
        rw [if_neg (fun hcon => hiil hcon.2), if_pos hissl]
        rw [encodeURIComponent_safe_id h.label hls,
          urlencode_safe_id _ hsvsafe, urlencode_safe_id _ halg,
          urlencode_safe_id _ hdvsafe, urlencode_safe_id _ hcvsafe,
          urlencode_safe_id _ his]
        simp only [joinAmp, List.append_assoc, List.cons_append]
        rfl
      have hm : uriMatch (hotpToString h) = some ("hotp".toList, h.label, joinAmp ["secret".toList ++ '=' :: base32Encode h.secret,
        "algorithm".toList ++ '=' :: h.algorithm,
        "digits".toList ++ '=' :: natToChars h.digits,
        "counter".toList ++ '=' :: intToChars h.counter,
        "issuer".toList ++ '=' :: h.issuer]) := by
        rw [hren]
        exact uriMatch_hotp _ _ hl hlblLT
          (joinAmp_forall (fun c => c ≠ '?') (by decide) _ (fun p hp => (hips p hp).1))
          (by rw [hsplit]; exact List.all_eq_true.mpr (fun p hp => (hips p hp).2.2))
      have hres : resolveLabel (issuerParam [("secret".toList, base32Encode h.secret),
        ("algorithm".toList, h.algorithm),
        ("digits".toList, natToChars h.digits),
        ("counter".toList, intToChars h.counter),
        ("issuer".toList, h.issuer)]) h.label =
          (some h.issuer, h.label, some false) := by
        rw [hip]
        unfold resolveLabel
        rw [splitSep_no_sep ':' h.label hlblCF]
        dsimp only [List.headD]
        rw [if_pos (by simp), htrimL]
      have hpc : parseCommon [("secret".toList, base32Encode h.secret),
        ("algorithm".toList, h.algorithm),
        ("digits".toList, natToChars h.digits),
        ("counter".toList, intToChars h.counter),
        ("issuer".toList, h.issuer)] h.label =
          .ok (some h.issuer, h.label, some false, h.secret, some h.algorithm,
            some (parseIntJS (natToChars h.digits)).toNat) :=
        parseCommon_eval _ _ _ _ _ (some h.issuer, h.label, some false) _ _ hdl0 hres rfl
          hst hdec rfl rfl (positiveIntegerTest_natToChars h.digits hd)
      have hfin : hotpFinish [("secret".toList, base32Encode h.secret),
        ("algorithm".toList, h.algorithm),
        ("digits".toList, natToChars h.digits),
        ("counter".toList, intToChars h.counter),
        ("issuer".toList, h.issuer)] h.label (parseIntJS (intToChars h.counter)) =
          .ok (.inl ⟨h.issuer, h.label, false, h.secret, toUpperStr h.algorithm,
            (parseIntJS (natToChars h.digits)).toNat,
            parseIntJS (intToChars h.counter)⟩) := by
        unfold hotpFinish
        rw [hpc]
        rfl
      refine ⟨⟨h.issuer, h.label, false, h.secret, toUpperStr h.algorithm,
        (parseIntJS (natToChars h.digits)).toNat, parseIntJS (intToChars h.counter)⟩,
        ?_, rfl, rfl, halgU, hdigits, hcounter, rfl⟩
      exact (uriParse_hotp_eval _ _ _ _ _ hm hmp rfl
        (integerTest_intToChars h.counter)).trans hfin

/-- Round trip of a totp configuration through its URI, for safe field
values and a canonical algorithm: the reparsed configuration agrees on
issuer, label, algorithm, digits, period and secret. -/
theorem totp_uri_roundtrip (t : TOTP)
    (hl : t.label ≠ []) (hls : ∀ c ∈ t.label, safeChar c = true)
    (his : ∀ c ∈ t.issuer, safeChar c = true)
    (hs0 : t.secret ≠ []) (hsb : ∀ x ∈ t.secret, x < 256)
    (halgmem : t.algorithm ∈ canonicalAlgorithms)
    (hd : 1 ≤ t.digits) (hp : 1 ≤ t.period) :
    ∃ out : TOTP, uriParse (totpToString t) = .ok (.inr out) ∧
      out.issuer = t.issuer ∧ out.label = t.label ∧ out.algorithm = t.algorithm ∧
      out.digits = t.digits ∧ out.period = t.period ∧ out.secret = t.secret := by
  have halg : ∀ c ∈ t.algorithm, safeChar c = true :=
    (canonicalAlgorithms_fixed t.algorithm halgmem).2.2.2
  have hcanon : canonicalizeAlgorithm t.algorithm = .ok t.algorithm :=
    (canonicalAlgorithms_fixed t.algorithm halgmem).1
  have hsvsafe : ∀ c ∈ base32Encode t.secret, safeChar c = true :=
    fun c hc => (base32Encode_chars _ c hc).1
  have hsvb32 : ∀ c ∈ base32Encode t.secret, isB32Char c = true :=
    fun c hc => (base32Encode_chars _ c hc).2
  have hdvsafe : ∀ c ∈ natToChars t.digits, safeChar c = true := natToChars_safe t.digits
  have hpvsafe : ∀ c ∈ natToChars t.period, safeChar c = true := natToChars_safe t.period
  have hf1 := piece_facts "secret".toList (base32Encode t.secret) (by decide) (by decide) hsvsafe
  have hf2 := piece_facts "algorithm".toList t.algorithm (by decide) (by decide) halg
  have hf3 := piece_facts "digits".toList (natToChars t.digits) (by decide) (by decide) hdvsafe
  have hf4 := piece_facts "period".toList (natToChars t.period) (by decide) (by decide) hpvsafe
  have hf5 := piece_facts "issuer".toList t.issuer (by decide) (by decide) his
  have hdp1 : decodePiece ("secret".toList ++ '=' :: base32Encode t.secret) =
      .ok ("secret".toList, base32Encode t.secret) :=
    decodePiece_kv _ _ (by decide) rfl rfl (fun c hc => (safe_ne c (hsvsafe c hc)).1)
  have hdp2 : decodePiece ("algorithm".toList ++ '=' :: t.algorithm) =
      .ok ("algorithm".toList, t.algorithm) :=
    decodePiece_kv _ _ (by decide) rfl rfl (fun c hc => (safe_ne c (halg c hc)).1)
  have hdp3 : decodePiece ("digits".toList ++ '=' :: natToChars t.digits) =
      .ok ("digits".toList, natToChars t.digits) :=
    decodePiece_kv _ _ (by decide) rfl rfl (fun c hc => (safe_ne c (hdvsafe c hc)).1)
  have hdp4 : decodePiece ("period".toList ++ '=' :: natToChars t.period) =
      .ok ("period".toList, natToChars t.period) :=
    decodePiece_kv _ _ (by decide) rfl rfl (fun c hc => (safe_ne c (hpvsafe c hc)).1)
  have hdp5 : decodePiece ("issuer".toList ++ '=' :: t.issuer) =
      .ok ("issuer".toList, t.issuer) :=
    decodePiece_kv _ _ (by decide) rfl rfl (fun c hc => (safe_ne c (his c hc)).1)
  have hsvne : base32Encode t.secret ≠ [] := by
    cases hsec : t.secret with
    | nil => exact absurd hsec hs0
    | cons b r => exact base32Encode_ne_nil b r
  have hst : secretTest (base32Encode t.secret) = true := secretTest_of _ hsvne hsvb32
  have hdec : base32Decode (base32Encode t.secret) = .ok t.secret :=
    base32_encode_then_decode t.secret hsb
  have hdl0 : decodeURIComponent t.label = .ok t.label :=
    decodeURIComponent_id _ (fun c hc => (safe_ne c (hls c hc)).1)
  have hlblLT : ∀ c ∈ t.label, isLineTerminator c = false :=
    fun c hc => safe_not_lineterm c (hls c hc)
  have hlblCF : ∀ c ∈ t.label, c ≠ ':' := fun c hc => (safe_ne c (hls c hc)).2.2.2.2
  have htrimL : trimJS t.label = t.label :=
    trimJS_id _ (fun c hc => safe_not_space c (hls c hc))
  have hdigits : (parseIntJS (natToChars t.digits)).toNat = t.digits := by
    rw [parseIntJS_natToChars]; omega
  have hperiod : (parseIntJS (natToChars t.period)).toNat = t.period := by
    rw [parseIntJS_natToChars]; omega
  by_cases hiss : t.issuer = []
  · -- no issuer: four parameters and a plain label
    have hps : ∀ p ∈ ["secret".toList ++ '=' :: base32Encode t.secret,
        "algorithm".toList ++ '=' :: t.algorithm,
        "digits".toList ++ '=' :: natToChars t.digits,
        "period".toList ++ '=' :: natToChars t.period],
        (∀ c ∈ p, c ≠ '?') ∧ (∀ c ∈ p, c ≠ '&') ∧ paramPieceOk p = true := by
      intro p hp2
      fin_cases hp2
      exacts [hf1, hf2, hf3, hf4]
    have hren : totpToString t = "otpauth://totp/".toList ++
        (t.label ++ '?' :: joinAmp ["secret".toList ++ '=' :: base32Encode t.secret,
        "algorithm".toList ++ '=' :: t.algorithm,
        "digits".toList ++ '=' :: natToChars t.digits,
        "period".toList ++ '=' :: natToChars t.period]) := by
      unfold totpToString
      rw [hiss]
      rw [if_neg (by simp), if_neg (by simp)]
      rw [encodeURIComponent_safe_id t.label hls,
        urlencode_safe_id _ hsvsafe, urlencode_safe_id _ halg,
        urlencode_safe_id _ hdvsafe, urlencode_safe_id _ hpvsafe,
        List.append_nil]
      simp only [joinAmp, List.append_assoc, List.cons_append]
      rfl
    have hsplit : splitSep '&' (joinAmp ["secret".toList ++ '=' :: base32Encode t.secret,
        "algorithm".toList ++ '=' :: t.algorithm,
        "digits".toList ++ '=' :: natToChars t.digits,
        "period".toList ++ '=' :: natToChars t.period]) = ["secret".toList ++ '=' :: base32Encode t.secret,
        "algorithm".toList ++ '=' :: t.algorithm,
        "digits".toList ++ '=' :: natToChars t.digits,
        "period".toList ++ '=' :: natToChars t.period] :=
      splitSep_joinAmp _ (fun p hp2 => (hps p hp2).2.1) (by simp)
    have hm : uriMatch (totpToString t) = some ("totp".toList, t.label, joinAmp ["secret".toList ++ '=' :: base32Encode t.secret,
        "algorithm".toList ++ '=' :: t.algorithm,
        "digits".toList ++ '=' :: natToChars t.digits,
        "period".toList ++ '=' :: natToChars t.period]) := by
      rw [hren]
      exact uriMatch_totp _ _ hl hlblLT
        (joinAmp_forall (fun c => c ≠ '?') (by decide) _ (fun p hp2 => (hps p hp2).1))
        (by rw [hsplit]; exact List.all_eq_true.mpr (fun p hp2 => (hps p hp2).2.2))
    have hmp : mapPieces (splitSep '&' (joinAmp ["secret".toList ++ '=' :: base32Encode t.secret,
        "algorithm".toList ++ '=' :: t.algorithm,
        "digits".toList ++ '=' :: natToChars t.digits,
        "period".toList ++ '=' :: natToChars t.period])) = .ok [("secret".toList, base32Encode t.secret),
        ("algorithm".toList, t.algorithm),
        ("digits".toList, natToChars t.digits),
        ("period".toList, natToChars t.period)] := by
      rw [hsplit]
      exact mapPieces_cons _ _ _ _ hdp1 (mapPieces_cons _ _ _ _ hdp2
        (mapPieces_cons _ _ _ _ hdp3 (mapPieces_cons _ _ _ _ hdp4 rfl)))
    have hres : resolveLabel (issuerParam [("secret".toList, base32Encode t.secret),
        ("algorithm".toList, t.algorithm),
        ("digits".toList, natToChars t.digits),
        ("period".toList, natToChars t.period)]) t.label = (none, t.label, none) := by
      rw [show issuerParam [("secret".toList, base32Encode t.secret),
        ("algorithm".toList, t.algorithm),
        ("digits".toList, natToChars t.digits),
        ("period".toList, natToChars t.period)] = none from rfl]
      unfold resolveLabel
      rw [splitSep_no_sep ':' t.label hlblCF]
      dsimp only [List.headD]
      rw [if_neg (fun hcon => hcon rfl), htrimL]
    have hpc : parseCommon [("secret".toList, base32Encode t.secret),
        ("algorithm".toList, t.algorithm),
        ("digits".toList, natToChars t.digits),
        ("period".toList, natToChars t.period)] t.label =
        .ok (none, t.label, none, t.secret, some t.algorithm,
          some (parseIntJS (natToChars t.digits)).toNat) :=
      parseCommon_eval _ _ _ _ _ (none, t.label, none) _ _ hdl0 hres rfl hst hdec rfl rfl
        (positiveIntegerTest_natToChars t.digits hd)
    have hfin : totpFinish [("secret".toList, base32Encode t.secret),
        ("algorithm".toList, t.algorithm),
        ("digits".toList, natToChars t.digits),
        ("period".toList, natToChars t.period)] (t.label)
        (some (parseIntJS (natToChars t.period)).toNat) =
        .ok (.inr (TOTP.mk [] t.label true t.secret t.algorithm
          (parseIntJS (natToChars t.digits)).toNat
          (parseIntJS (natToChars t.period)).toNat)) := by
      unfold totpFinish
      rw [hpc]
      dsimp only []
      rw [show totpNew
          { issuer := none, label := some t.label, issuerInLabel := none,
            secret := .bytes t.secret, algorithm := some t.algorithm,
            digits := some (parseIntJS (natToChars t.digits)).toNat,
            period := some (parseIntJS (natToChars t.period)).toNat } =
          Except.bind (canonicalizeAlgorithm t.algorithm) (fun alg =>
            Except.ok (TOTP.mk [] t.label true t.secret alg
              (parseIntJS (natToChars t.digits)).toNat
              (parseIntJS (natToChars t.period)).toNat)) from rfl]
      rw [hcanon]
      rfl
    refine ⟨TOTP.mk [] t.label true t.secret t.algorithm
      (parseIntJS (natToChars t.digits)).toNat
      (parseIntJS (natToChars t.period)).toNat,
      ?_, hiss.symm, rfl, rfl, hdigits, hperiod, rfl⟩
    exact (uriParse_totp_eval _ _ _ _ _ hm hmp rfl
      (positiveIntegerTest_natToChars t.period hp)).trans hfin
  · -- issuer present: five parameters
    have hissl : 0 < t.issuer.length := List.length_pos.mpr hiss
    have hips : ∀ p ∈ ["secret".toList ++ '=' :: base32Encode t.secret,
        "algorithm".toList ++ '=' :: t.algorithm,
        "digits".toList ++ '=' :: natToChars t.digits,
        "period".toList ++ '=' :: natToChars t.period,
        "issuer".toList ++ '=' :: t.issuer],
        (∀ c ∈ p, c ≠ '?') ∧ (∀ c ∈ p, c ≠ '&') ∧ paramPieceOk p = true := by
      intro p hp2
      fin_cases hp2
      exacts [hf1, hf2, hf3, hf4, hf5]
    have hsplit : splitSep '&' (joinAmp ["secret".toList ++ '=' :: base32Encode t.secret,
        "algorithm".toList ++ '=' :: t.algorithm,
        "digits".toList ++ '=' :: natToChars t.digits,
        "period".toList ++ '=' :: natToChars t.period,
        "issuer".toList ++ '=' :: t.issuer]) = ["secret".toList ++ '=' :: base32Encode t.secret,
        "algorithm".toList ++ '=' :: t.algorithm,
        "digits".toList ++ '=' :: natToChars t.digits,
        "period".toList ++ '=' :: natToChars t.period,
        "issuer".toList ++ '=' :: t.issuer] :=
      splitSep_joinAmp _ (fun p hp2 => (hips p hp2).2.1) (by simp)
    have hmp : mapPieces (splitSep '&' (joinAmp ["secret".toList ++ '=' :: base32Encode t.secret,
        "algorithm".toList ++ '=' :: t.algorithm,
        "digits".toList ++ '=' :: natToChars t.digits,
        "period".toList ++ '=' :: natToChars t.period,
        "issuer".toList ++ '=' :: t.issuer])) = .ok [("secret".toList, base32Encode t.secret),
        ("algorithm".toList, t.algorithm),
        ("digits".toList, natToChars t.digits),
        ("period".toList, natToChars t.period),
        ("issuer".toList, t.issuer)] := by
      rw [hsplit]
      exact mapPieces_cons _ _ _ _ hdp1 (mapPieces_cons _ _ _ _ hdp2
        (mapPieces_cons _ _ _ _ hdp3 (mapPieces_cons _ _ _ _ hdp4
          (mapPieces_cons _ _ _ _ hdp5 rfl))))
    have hip : issuerParam [("secret".toList, base32Encode t.secret),
        ("algorithm".toList, t.algorithm),
        ("digits".toList, natToChars t.digits),
        ("period".toList, natToChars t.period),
        ("issuer".toList, t.issuer)] = some t.issuer := by
      unfold issuerParam
      rw [show lookupParam [("secret".toList, base32Encode t.secret),
        ("algorithm".toList, t.algorithm),
        ("digits".toList, natToChars t.digits),
        ("period".toList, natToChars t.period),
        ("issuer".toList, t.issuer)] "issuer".toList = some t.issuer from rfl]
      dsimp only []
      rw [if_pos hiss]
    have hicf : ∀ c ∈ t.issuer, c ≠ ':' := fun c hc => (safe_ne c (his c hc)).2.2.2.2
    have hinp : ∀ c ∈ t.issuer, c ≠ '%' := fun c hc => (safe_ne c (his c hc)).1
    by_cases hiil : t.issuerInLabel = true
    · -- issuer carried inside the label
      have hren : totpToString t = "otpauth://totp/".toList ++
          ((t.issuer ++ ':' :: t.label) ++ '?' :: joinAmp ["secret".toList ++ '=' :: base32Encode t.secret,
        "algorithm".toList ++ '=' :: t.algorithm,
        "digits".toList ++ '=' :: natToChars t.digits,
        "period".toList ++ '=' :: natToChars t.period,
        "issuer".toList ++ '=' :: t.issuer]) := by
        unfold totpToString
        rw [if_pos (And.intro hissl hiil), if_pos hissl]
        rw [encodeURIComponent_safe_id t.label hls, encodeURIComponent_safe_id t.issuer his,
          urlencode_safe_id _ hsvsafe, urlencode_safe_id _ halg,
          urlencode_safe_id _ hdvsafe, urlencode_safe_id _ hpvsafe,
          urlencode_safe_id _ his]
        simp only [joinAmp, List.append_assoc, List.cons_append]
        rfl
      have hLne : t.issuer ++ ':' :: t.label ≠ [] := by simp
      have hLlt : ∀ c ∈ t.issuer ++ ':' :: t.label, isLineTerminator c = false := by
        intro c hc
        rcases List.mem_append.mp hc with h1 | h2
        · exact safe_not_lineterm c (his c h1)
        · rcases List.mem_cons.mp h2 with e | h3
          · rw [e]; decide
          · exact safe_not_lineterm c (hls c h3)
      have hdlL : decodeURIComponent (t.issuer ++ ':' :: t.label) =
          .ok (t.issuer ++ ':' :: t.label) := by
        refine decodeURIComponent_id _ ?_
        intro c hc
        rcases List.mem_append.mp hc with h1 | h2
        · exact hinp c h1
        · rcases List.mem_cons.mp h2 with e | h3
          · rw [e]; decide
          · exact (safe_ne c (hls c h3)).1
      have hm : uriMatch (totpToString t) = some ("totp".toList,
          t.issuer ++ ':' :: t.label, joinAmp ["secret".toList ++ '=' :: base32Encode t.secret,
        "algorithm".toList ++ '=' :: t.algorithm,
        "digits".toList ++ '=' :: natToChars t.digits,
        "period".toList ++ '=' :: natToChars t.period,
        "issuer".toList ++ '=' :: t.issuer]) := by
        rw [hren]
        exact uriMatch_totp _ _ hLne hLlt
          (joinAmp_forall (fun c => c ≠ '?') (by decide) _ (fun p hp2 => (hips p hp2).1))
          (by rw [hsplit]; exact List.all_eq_true.mpr (fun p hp2 => (hips p hp2).2.2))
      have hres : resolveLabel (issuerParam [("secret".toList, base32Encode t.secret),
        ("algorithm".toList, t.algorithm),
        ("digits".toList, natToChars t.digits),
        ("period".toList, natToChars t.period),
        ("issuer".toList, t.issuer)]) (t.issuer ++ ':' :: t.label) =
          (some t.issuer, t.label, none) := by
        rw [hip]
        unfold resolveLabel
        rw [splitSep_append ':' t.issuer t.label hicf, splitSep_no_sep ':' t.label hlblCF]
        dsimp only []
        rw [if_neg (by simp), htrimL]
      have hpc : parseCommon [("secret".toList, base32Encode t.secret),
        ("algorithm".toList, t.algorithm),
        ("digits".toList, natToChars t.digits),
        ("period".toList, natToChars t.period),
        ("issuer".toList, t.issuer)] (t.issuer ++ ':' :: t.label) =
          .ok (some t.issuer, t.label, none, t.secret, some t.algorithm,
            some (parseIntJS (natToChars t.digits)).toNat) :=
        parseCommon_eval _ _ _ _ _ (some t.issuer, t.label, none) _ _ hdlL hres rfl hst hdec
          rfl rfl (positiveIntegerTest_natToChars t.digits hd)
      have hfin : totpFinish [("secret".toList, base32Encode t.secret),
        ("algorithm".toList, t.algorithm),
        ("digits".toList, natToChars t.digits),
        ("period".toList, natToChars t.period),
        ("issuer".toList, t.issuer)] (t.issuer ++ ':' :: t.label)
          (some (parseIntJS (natToChars t.period)).toNat) =
          .ok (.inr (TOTP.mk t.issuer t.label true t.secret t.algorithm
            (parseIntJS (natToChars t.digits)).toNat
            (parseIntJS (natToChars t.period)).toNat)) := by
        unfold totpFinish
        rw [hpc]
        dsimp only []
        rw [show totpNew
            { issuer := some t.issuer, label := some t.label, issuerInLabel := none,
              secret := .bytes t.secret, algorithm := some t.algorithm,
              digits := some (parseIntJS (natToChars t.digits)).toNat,
              period := some (parseIntJS (natToChars t.period)).toNat } =
            Except.bind (canonicalizeAlgorithm t.algorithm) (fun alg =>
              Except.ok (TOTP.mk t.issuer t.label true t.secret alg
                (parseIntJS (natToChars t.digits)).toNat
                (parseIntJS (natToChars t.period)).toNat)) from rfl]
        rw [hcanon]
        rfl
      refine ⟨TOTP.mk t.issuer t.label true t.secret t.algorithm
        (parseIntJS (natToChars t.digits)).toNat
        (parseIntJS (natToChars t.period)).toNat,
        ?_, rfl, rfl, rfl, hdigits, hperiod, rfl⟩
      exact (uriParse_totp_eval _ _ _ _ _ hm hmp rfl
        (positiveIntegerTest_natToChars t.period hp)).trans hfin
    · -- issuer kept out of the label
      have hren : totpToString t = "otpauth://totp/".toList ++
          (t.label ++ '?' :: joinAmp ["secret".toList ++ '=' :: base32Encode t.secret,
        "algorithm".toList ++ '=' :: t.algorithm,
        "digits".toList ++ '=' :: natToChars t.digits,
        "period".toList ++ '=' :: natToChars t.period,
        "issuer".toList ++ '=' :: t.issuer]) := by
        unfold totpToString
        rw [if_neg (fun hcon => hiil hcon.2), if_pos hissl]
        rw [encodeURIComponent_safe_id t.label hls,
          urlencode_safe_id _ hsvsafe, urlencode_safe_id _ halg,
          urlencode_safe_id _ hdvsafe, urlencode_safe_id _ hpvsafe,
          urlencode_safe_id _ his]
        simp only [joinAmp, List.append_assoc, List.cons_append]
        rfl
      have hm : uriMatch (totpToString t) = some ("totp".toList, t.label, joinAmp ["secret".toList ++ '=' :: base32Encode t.secret,
        "algorithm".toList ++ '=' :: t.algorithm,
        "digits".toList ++ '=' :: natToChars t.digits,
        "period".toList ++ '=' :: natToChars t.period,
        "issuer".toList ++ '=' :: t.issuer]) := by
        rw [hren]
        exact uriMatch_totp _ _ hl hlblLT
          (joinAmp_forall (fun c => c ≠ '?') (by decide) _ (fun p hp2 => (hips p hp2).1))
          (by rw [hsplit]; exact List.all_eq_true.mpr (fun p hp2 => (hips p hp2).2.2))
      have hres : resolveLabel (issuerParam [("secret".toList, base32Encode t.secret),
        ("algorithm".toList, t.algorithm),
        ("digits".toList, natToChars t.digits),
        ("period".toList, natToChars t.period),
        ("issuer".toList, t.issuer)]) t.label =
          (some t.issuer, t.label, some false) := by
        rw [hip]
        unfold resolveLabel
        rw [splitSep_no_sep ':' t.label hlblCF]
        dsimp only [List.headD]
        rw [if_pos (by simp), htrimL]
      have hpc : parseCommon [("secret".toList, base32Encode t.secret),
        ("algorithm".toList, t.algorithm),
        ("digits".toList, natToChars t.digits),
        ("period".toList, natToChars t.period),
        ("issuer".toList, t.issuer)] t.label =
          .ok (some t.issuer, t.label, some false, t.secret, some t.algorithm,
            some (parseIntJS (natToChars t.digits)).toNat) :=
        parseCommon_eval _ _ _ _ _ (some t.issuer, t.label, some false) _ _ hdl0 hres rfl
          hst hdec rfl rfl (positiveIntegerTest_natToChars t.digits hd)
      have hfin : totpFinish [("secret".toList, base32Encode t.secret),
        ("algorithm".toList, t.algorithm),
        ("digits".toList, natToChars t.digits),
        ("period".toList, natToChars t.period),
        ("issuer".toList, t.issuer)] (t.label)
          (some (parseIntJS (natToChars t.period)).toNat) =
          .ok (.inr (TOTP.mk t.issuer t.label false t.secret t.algorithm
            (parseIntJS (natToChars t.digits)).toNat
            (parseIntJS (natToChars t.period)).toNat)) := by
        unfold totpFinish
        rw [hpc]
        dsimp only []
        rw [show totpNew
            { issuer := some t.issuer, label := some t.label, issuerInLabel := some false,
              secret := .bytes t.secret, algorithm := some t.algorithm,
              digits := some (parseIntJS (natToChars t.digits)).toNat,
              period := some (parseIntJS (natToChars t.period)).toNat } =
            Except.bind (canonicalizeAlgorithm t.algorithm) (fun alg =>
              Except.ok (TOTP.mk t.issuer t.label false t.secret alg
                (parseIntJS (natToChars t.digits)).toNat
                (parseIntJS (natToChars t.period)).toNat)) from rfl]
        rw [hcanon]
        rfl
      refine ⟨TOTP.mk t.issuer t.label false t.secret t.algorithm
        (parseIntJS (natToChars t.digits)).toNat
        (parseIntJS (natToChars t.period)).toNat,
        ?_, rfl, rfl, rfl, hdigits, hperiod, rfl⟩
      exact (uriParse_totp_eval _ _ _ _ _ hm hmp rfl
        (positiveIntegerTest_natToChars t.period hp)).trans hfin

/-- C6 (amended): for a constructed configuration whose label is
nonempty, whose label and issuer consist of URL-safe characters (in
particular no colon), whose secret is a nonempty byte sequence, whose
digits (and period) are positive, and whose algorithm is stored in
canonical form (uppercase-stable for HOTP, a canonical name for TOTP),
parsing the URI produced by stringify yields a configuration with
identical issuer, resolved label, algorithm, digits, and counter
(HOTP) or period (TOTP), and a secret whose base32 view is identical.
Without these restrictions the round trip can fail, e.g. when the
label contains a colon. -/
theorem uri_roundtrip_c6_amended (h : HOTP) (t : TOTP)
    (hhl : h.label ≠ []) (hhls : ∀ c ∈ h.label, safeChar c = true)
    (hhis : ∀ c ∈ h.issuer, safeChar c = true)
    (hhs0 : h.secret ≠ []) (hhsb : ∀ x ∈ h.secret, x < 256)
    (hhalg : ∀ c ∈ h.algorithm, safeChar c = true)
    (hhalgU : toUpperStr h.algorithm = h.algorithm)
    (hhd : 1 ≤ h.digits)
    (htl : t.label ≠ []) (htls : ∀ c ∈ t.label, safeChar c = true)
    (htis : ∀ c ∈ t.issuer, safeChar c = true)
    (hts0 : t.secret ≠ []) (htsb : ∀ x ∈ t.secret, x < 256)
    (htalg : t.algorithm ∈ canonicalAlgorithms)
    (htd : 1 ≤ t.digits) (htp : 1 ≤ t.period) :
    (∃ out : HOTP, uriParse (hotpToString h) = .ok (.inl out) ∧
      out.issuer = h.issuer ∧ out.label = h.label ∧ out.algorithm = h.algorithm ∧
      out.digits = h.digits ∧ out.counter = h.counter ∧
      base32Encode out.secret = base32Encode h.secret) ∧
    (∃ out : TOTP, uriParse (totpToString t) = .ok (.inr out) ∧
      out.issuer = t.issuer ∧ out.label = t.label ∧ out.algorithm = t.algorithm ∧
      out.digits = t.digits ∧ out.period = t.period ∧
      base32Encode out.secret = base32Encode t.secret) := by
  constructor
  · obtain ⟨out, h1, h2, h3, h4, h5, h6, h7⟩ :=
      hotp_uri_roundtrip h hhl hhls hhis hhs0 hhsb hhalg hhalgU hhd
    exact ⟨out, h1, h2, h3, h4, h5, h6, by rw [h7]⟩
  · obtain ⟨out, h1, h2, h3, h4, h5, h6, h7⟩ :=
      totp_uri_roundtrip t htl htls htis hts0 htsb htalg htd htp
    exact ⟨out, h1, h2, h3, h4, h5, h6, by rw [h7]⟩

/-- Witness for C6 at two concrete configurations. -/
theorem uri_roundtrip_c6_amended_witness :
    (c6wHotp.label ≠ [] ∧ (∀ c ∈ c6wHotp.label, safeChar c = true) ∧
      (∀ c ∈ c6wHotp.issuer, safeChar c = true) ∧
      c6wHotp.secret ≠ [] ∧ (∀ x ∈ c6wHotp.secret, x < 256) ∧
      (∀ c ∈ c6wHotp.algorithm, safeChar c = true) ∧
      toUpperStr c6wHotp.algorithm = c6wHotp.algorithm ∧ 1 ≤ c6wHotp.digits ∧
      c6wTotp.label ≠ [] ∧ (∀ c ∈ c6wTotp.label, safeChar c = true) ∧
      (∀ c ∈ c6wTotp.issuer, safeChar c = true) ∧
      c6wTotp.secret ≠ [] ∧ (∀ x ∈ c6wTotp.secret, x < 256) ∧
      c6wTotp.algorithm ∈ canonicalAlgorithms ∧
      1 ≤ c6wTotp.digits ∧ 1 ≤ c6wTotp.period) ∧
    ((∃ out : HOTP, uriParse (hotpToString c6wHotp) = .ok (.inl out) ∧
      out.issuer = c6wHotp.issuer ∧ out.label = c6wHotp.label ∧
      out.algorithm = c6wHotp.algorithm ∧ out.digits = c6wHotp.digits ∧
      out.counter = c6wHotp.counter ∧
      base32Encode out.secret = base32Encode c6wHotp.secret) ∧
    (∃ out : TOTP, uriParse (totpToString c6wTotp) = .ok (.inr out) ∧
      out.issuer = c6wTotp.issuer ∧ out.label = c6wTotp.label ∧
      out.algorithm = c6wTotp.algorithm ∧ out.digits = c6wTotp.digits ∧
      out.period = c6wTotp.period ∧
      base32Encode out.secret = base32Encode c6wTotp.secret)) :=
  by
  have e1 : c6wHotp.label ≠ [] := by decide
  have e2 : ∀ c ∈ c6wHotp.label, safeChar c = true := by decide
  have e3 : ∀ c ∈ c6wHotp.issuer, safeChar c = true := by decide
  have e4 : c6wHotp.secret ≠ [] := by decide
  have e5 : ∀ x ∈ c6wHotp.secret, x < 256 := by decide
  have e6 : ∀ c ∈ c6wHotp.algorithm, safeChar c = true := by decide
  have e7 : toUpperStr c6wHotp.algorithm = c6wHotp.algorithm := by decide
  have e8 : 1 ≤ c6wHotp.digits := by decide
  have e9 : c6wTotp.label ≠ [] := by decide
  have e10 : ∀ c ∈ c6wTotp.label, safeChar c = true := by decide
  have e11 : ∀ c ∈ c6wTotp.issuer, safeChar c = true := by decide
  have e12 : c6wTotp.secret ≠ [] := by decide
  have e13 : ∀ x ∈ c6wTotp.secret, x < 256 := by decide
  have e14 : c6wTotp.algorithm ∈ canonicalAlgorithms := by decide
  have e15 : 1 ≤ c6wTotp.digits := by decide
  have e16 : 1 ≤ c6wTotp.period := by decide
  exact ⟨⟨e1, e2, e3, e4, e5, e6, e7, e8, e9, e10, e11, e12, e13, e14, e15, e16⟩,
    uri_roundtrip_c6_amended c6wHotp c6wTotp e1 e2 e3 e4 e5 e6 e7 e8
      e9 e10 e11 e12 e13 e14 e15 e16⟩
